import Mathlib

/-!
Verification of the godynamo statement layer: a shallow embedding of the
WITH-clause option mini-parser (`Stmt.parseWithOpts`), the CREATE TABLE
statement (`StmtCreateTable.parse` / `Exec` / `RowsAffected`), the
connection transaction coordinator (`Conn.commit` / `Conn.rollback` /
`Conn.BeginTx`), and the paginated result cursor
(`ResultResultSet.init` / `Next` / `fetchNext`), together with theorems
about their behaviour.

Strings are modelled as Lean `String`/`List Char`; Go byte-level regex
classes are ASCII so character-level modelling is exact on all inputs the
grammar can produce.  Go `int64` values are modelled as `Int` with the
int64 range enforced where the code enforces it (`strconv.ParseInt`).
-/

/-! ### Character classes of the Go regular expressions

`reWithOpts = (?im)^(\s+|\s*,\s+|\s+,\s*)WITH\s+([\w\-]+)\s*=\s*([\w/\.\*,;:'"-]+)`.
RE2's `\s` is `[\t\n\f\r ]` and `\w` is `[0-9A-Za-z_]` (ASCII). -/

def isWS (c : Char) : Bool :=
  c = ' ' || c = '\t' || c = '\n' || c = '\r' || c = Char.ofNat 12

def isSepChar (c : Char) : Bool :=
  isWS c || c = ','

def isWordC (c : Char) : Bool :=
  c.isAlphanum || c = '_'

def isFieldC (c : Char) : Bool :=
  isWordC c || c = '-'

def isValueC (c : Char) : Bool :=
  isWordC c || c = '/' || c = '.' || c = '*' || c = ',' || c = ';' || c = ':' ||
    c = Char.ofNat 39 || c = '"' || c = '-'

/-- The separator group `(\s+|\s*,\s+|\s+,\s*)` matches a maximal run of
whitespace/comma characters exactly when the run is nonempty, has at most one
comma, and is not the single comma (a lone comma has neither the required
whitespace before nor after it). -/
def sepOk (run : List Char) : Bool :=
  !run.isEmpty && run.countP (fun c => c = ',') ≤ 1 && run ≠ [',']

/-- Case-insensitive literal match (the `(?i)` flag of the Go regexes),
returning the rest of the input after the literal. -/
def matchCI : List Char → List Char → Option (List Char)
  | [], rest => some rest
  | _ :: _, [] => none
  | p :: ps, c :: cs => if c.toUpper = p then matchCI ps cs else none

/-- The separator group: succeeds exactly when the maximal leading run of
whitespace/comma characters is a valid separator, returning the input after
the run. -/
def matchSepGo (cs : List Char) : Option (List Char) :=
  if sepOk (cs.takeWhile isSepChar) then some (cs.dropWhile isSepChar) else none

/-- A required (`+`) character-class run: the maximal leading run of `p`
characters, which must be nonempty, together with the rest of the input. -/
def reqRun (p : Char → Bool) (cs : List Char) : Option (List Char × List Char) :=
  if (cs.takeWhile p).isEmpty then none else some (cs.takeWhile p, cs.dropWhile p)

/-- One match of `reWithOpts` anchored at the start of the given suffix: the
separator, the literal `WITH`, `\s+`, the key (`[\w\-]+`), `\s*=\s*`, and the
greedy value (`[\w/\.\*,;:'"-]+`).  Returns the key capture, the value
capture and the rest of the suffix after the match.  Because the key/value
classes exclude the characters that follow them, the greedy maximal-run
reading is the unique regex match at this anchor. -/
def matchWithOptHere (cs : List Char) : Option (List Char × List Char × List Char) :=
  match matchSepGo cs with
  | none => none
  | some r1 =>
    match matchCI ['W', 'I', 'T', 'H'] r1 with
    | none => none
    | some r2 =>
      match reqRun isWS r2 with
      | none => none
      | some (_, r3) =>
        match reqRun isFieldC r3 with
        | none => none
        | some (key, r4) =>
          let r5 := r4.dropWhile isWS
          if r5.head? = some '=' then
            let r7 := r5.tail.dropWhile isWS
            match reqRun isValueC r7 with
            | none => none
            | some (value, r8) => some (key, value, r8)
          else none

/-- The later `(?m)^` anchors of `reWithOpts`: scan for each newline and try a
match right after it, in order, returning the key capture, the value capture
and the length of the matched text (`len(matches[0])`). -/
def findAfterNl : List Char → Option (List Char × List Char × Nat)
  | [] => none
  | c :: rest =>
    if c = '\n' then
      match matchWithOptHere rest with
      | some (k, v, r) => some (k, v, rest.length - r.length)
      | none => findAfterNl rest
    else findAfterNl rest

/-- `reWithOpts.FindStringSubmatch`: the pattern carries `(?im)`, so with the
multiline flag the `^` anchor matches at the start of the input and right
after every newline, and the leftmost match over those anchors is returned.
Yields the key capture, the value capture and `len(matches[0])`. -/
def findWithOpt (cs : List Char) : Option (List Char × List Char × Nat) :=
  match matchWithOptHere cs with
  | some (k, v, rest) => some (k, v, cs.length - rest.length)
  | none => findAfterNl cs

/-! ### The option multimap (`map[string]OptStrings`)

Modelled as an association list keyed by `String`; `mmAppend` is
`s.withOpts[k] = append(s.withOpts[k], v)`, `mmLookup` is indexing (a missing
key yields the empty slice), `mmContains` the `_, ok :=` presence test and
`mmFirst` is `OptStrings.FirstString`. -/

abbrev MM := List (String × List String)

def mmAppend : MM → String → String → MM
  | [], k, v => [(k, [v])]
  | (k0, vs) :: t, k, v =>
    if k0 = k then (k0, vs ++ [v]) :: t else (k0, vs) :: mmAppend t k v

def mmLookup : MM → String → List String
  | [], _ => []
  | (k0, vs) :: t, k => if k0 = k then vs else mmLookup t k

def mmContains : MM → String → Bool
  | [], _ => false
  | (k0, _) :: t, k => if k0 = k then true else mmContains t k

def mmFirst (m : MM) (k : String) : String :=
  (mmLookup m k).headD ""

/-- Go `strings.TrimSpace` restricted to the space characters that can occur
here (the tokens being trimmed never contain whitespace, so this is always
the identity in practice). -/
def isSpaceGo (c : Char) : Bool :=
  c = ' ' || c = '\t' || c = '\n' || c = '\r' || c = Char.ofNat 11 || c = Char.ofNat 12

def trimChars (cs : List Char) : List Char :=
  ((cs.dropWhile isSpaceGo).reverse.dropWhile isSpaceGo).reverse

def upperChars (cs : List Char) : List Char :=
  cs.map Char.toUpper

/-- Go `strings.TrimSuffix(s, ",")`: drops one trailing comma if present. -/
def stripComma (cs : List Char) : List Char :=
  if cs.getLast? = some ',' then cs.dropLast else cs

/-- The key as stored: `strings.TrimSpace(strings.ToUpper(matches[2]))`. -/
def normKey (k : List Char) : String :=
  String.mk (trimChars (upperChars k))

/-- The value as stored: `strings.TrimSuffix(strings.TrimSpace(matches[3]), ",")`. -/
def normVal (v : List Char) : String :=
  String.mk (stripComma (trimChars v))

/-- The loop body of `Stmt.parseWithOpts`, with explicit fuel: find the
leftmost line-anchored match, record it, then slice `len(matches[0])`
characters off the *front* of the fragment (`withOptsStr[len(matches[0]):]` —
the Go code slices from the front even when the match started after a later
newline).  The slice length is modelled in characters, which coincides with
Go's byte slicing on ASCII fragments (the grammar's character classes are
ASCII).  Every found match has positive length (`findWithOpt_len_pos`), so
fuel equal to the input length never runs out and the fuelled function
computes exactly the Go loop. -/
def parseLoopFuel : Nat → List Char → MM → MM
  | 0, _, m => m
  | Nat.succ fuel, cs, m =>
    match findWithOpt cs with
    | none => m
    | some (k, v, len) => parseLoopFuel fuel (cs.drop len) (mmAppend m (normKey k) (normVal v))

/-- Model of `Stmt.parseWithOpts`: repeatedly find the leftmost line-anchored
`WITH key=value` match, upper-case the key, strip a trailing comma from the
value, append the value to that key's sequence, and drop the match's length
from the front of the fragment.  It never fails (the Go function always
returns `nil`), so the model returns the multimap directly. -/
def parseWithOpts (s : String) : MM :=
  parseLoopFuel s.data.length s.data []

/-- The ordered list of raw `(key, value)` captures under the *leading-match*
reading of the loop: repeatedly match only at the start of the fragment and
advance past the matched prefix.  This is the spec's description of
`parseWithOpts`; it coincides with the code on newline-free fragments and
diverges on fragments where a match exists only after an interior newline. -/
def withTokensFuel : Nat → List Char → List (List Char × List Char)
  | 0, _ => []
  | Nat.succ fuel, cs =>
    match matchWithOptHere cs with
    | none => []
    | some (k, v, rest) => (k, v) :: withTokensFuel fuel rest

def withTokens (cs : List Char) : List (List Char × List Char) :=
  withTokensFuel cs.length cs

/-- The ordered list of raw `(key, value)` captures actually produced by the
Go loop: leftmost line-anchored match, then a front slice of the match's
length. -/
def findTokensFuel : Nat → List Char → List (List Char × List Char)
  | 0, _ => []
  | Nat.succ fuel, cs =>
    match findWithOpt cs with
    | none => []
    | some (k, v, len) => (k, v) :: findTokensFuel fuel (cs.drop len)

def findTokens (cs : List Char) : List (List Char × List Char) :=
  findTokensFuel cs.length cs

/-- The values a key receives, in declaration order, from a token list. -/
def tokensFilter (k : String) (toks : List (List Char × List Char)) : List String :=
  toks.filterMap fun kv => if normKey kv.1 = k then some (normVal kv.2) else none

/-! ### String helpers used by `StmtCreateTable.parse` -/

/-- Go `strings.SplitN(s, sep, n)` for `n ≥ 1`: at most `n` pieces, the last
piece being the unsplit remainder; `budget` is the number of splits still
allowed (`n - 1`). -/
def splitNCore (sep : Char) : Nat → List Char → List (List Char)
  | 0, cs => [cs]
  | Nat.succ budget, cs =>
    let pre := cs.takeWhile (fun c => c ≠ sep)
    let rest := cs.dropWhile (fun c => c ≠ sep)
    match rest with
    | [] => [cs]
    | _ :: tail => pre :: splitNCore sep budget tail

def splitN (sep : Char) (n : Nat) (s : String) : List String :=
  if n = 0 then [] else (splitNCore sep (n - 1) s.data).map String.mk

/-- Go `strings.Split(s, sep)`: unbounded split. -/
def splitAllGo (sep : Char) : List Char → List Char → List (List Char)
  | acc, [] => [acc.reverse]
  | acc, c :: rest =>
    if c = sep then acc.reverse :: splitAllGo sep [] rest
    else splitAllGo sep (c :: acc) rest

def goSplit (sep : Char) (s : String) : List String :=
  (splitAllGo sep [] s.data).map String.mk

def trimS (s : String) : String :=
  String.mk (trimChars s.data)

def upperS (s : String) : String :=
  String.mk (upperChars s.data)

def digitsToNat : Nat → List Char → Nat
  | acc, [] => acc
  | acc, c :: cs => digitsToNat (acc * 10 + (c.toNat - 48)) cs

/-- Go `strconv.ParseInt(s, 10, 64)`, as the successfully parsed value:
an optional sign, one or more ASCII digits, and a result within the int64
range; `none` models a non-nil error (including range errors). -/
def goParseInt64 (s : String) : Option Int :=
  match s.data with
  | [] => none
  | c :: rest =>
    let (neg, ds) :=
      if c = '-' then (true, rest)
      else if c = '+' then (false, rest)
      else (false, c :: rest)
    if ds.isEmpty || !ds.all Char.isDigit then none
    else
      let v : Int := digitsToNat 0 ds
      let iv := if neg then -v else v
      if -(2 ^ 63) ≤ iv ∧ iv ≤ 2 ^ 63 - 1 then some iv else none

/-- Go `fmt`'s `%s` rendering of a `[]string`, used in capacity error
messages. -/
def fmtStrs (l : List String) : String :=
  "[" ++ String.intercalate " " l ++ "]"

/-! ### `StmtCreateTable` -/

/-- Modelled from the spec: the `dataTypes` whitelist (declared outside the
provided sources) of scalar key/field type tags — "exactly three tags
(binary, number, string)" — mapping each to the store's native scalar
attribute type. -/
def dataTypes : List (String × String) :=
  [("BINARY", "B"), ("NUMBER", "N"), ("STRING", "S")]

def dataTypesContains (t : String) : Bool :=
  (dataTypes.lookup t).isSome

/-- Indexing `dataTypes[t]`: a missing key yields the zero value `""`. -/
def dataTypesGet (t : String) : String :=
  (dataTypes.lookup t).getD ""

structure LsiDef where
  indexName : String
  fieldName : String
  fieldType : String
  projectedFields : String
deriving DecidableEq, Repr

structure CreateTableFields where
  pkName : String
  pkType : String
  skName : String
  skType : String
  lsi : List LsiDef
  rcu : Int
  wcu : Int
deriving DecidableEq, Repr

/-- The unvalidated extraction of one `WITH LSI=...` value:
`strings.SplitN(lsiStr, ":", 4)` with the positional fields trimmed and the
type upper-cased. -/
def mkLsiDef (s : String) : LsiDef :=
  let t := splitN ':' 4 s
  { indexName := trimS (t.headD "")
    fieldName := if t.length > 1 then trimS (t.getD 1 "") else ""
    fieldType := if t.length > 2 then trimS (upperS (t.getD 2 "")) else ""
    projectedFields := if t.length > 3 then trimS (t.getD 3 "") else "" }

/-- The body of the LSI loop in `StmtCreateTable.parse`: validation is only
performed when the index name is non-empty. -/
def parseLsiOne (s : String) : Except String LsiDef :=
  let d := mkLsiDef s
  if d.indexName ≠ "" then
    if d.fieldName = "" then
      Except.error ("invalid LSI definition <" ++ d.indexName ++ ">: empty field name")
    else if dataTypesContains d.fieldType = false then
      Except.error ("invalid type <" ++ d.fieldType ++ "> of LSI <" ++ d.indexName ++
        ">, accepts values are BINARY, NUMBER and STRING")
    else Except.ok d
  else Except.ok d

def parseLsiList : List String → Except String (List LsiDef)
  | [] => Except.ok []
  | v :: rest =>
    match parseLsiOne v with
    | Except.error e => Except.error e
    | Except.ok d =>
      match parseLsiList rest with
      | Except.error e => Except.error e
      | Except.ok ds => Except.ok (d :: ds)

/-- The RCU/WCU block of `StmtCreateTable.parse`: if the option is present its
first value must parse as a positive integer, otherwise the field stays `0`. -/
def parseCapacity (m : MM) (key : String) : Except String Int :=
  if mmContains m key then
    match goParseInt64 (mmFirst m key) with
    | some v =>
      if v ≤ 0 then Except.error ("invalid " ++ key ++ " value: " ++ fmtStrs (mmLookup m key))
      else Except.ok v
    | none => Except.error ("invalid " ++ key ++ " value: " ++ fmtStrs (mmLookup m key))
  else Except.ok 0

def pkNameOfM (m : MM) : String :=
  trimS ((splitN ':' 2 (mmFirst m "PK")).headD "")

def pkTypeOfM (m : MM) : String :=
  let t := splitN ':' 2 (mmFirst m "PK")
  if t.length > 1 then trimS (upperS (t.getD 1 "")) else ""

def skNameOfM (m : MM) : String :=
  trimS ((splitN ':' 2 (mmFirst m "SK")).headD "")

def skTypeOfM (m : MM) : String :=
  let t := splitN ':' 2 (mmFirst m "SK")
  if t.length > 1 then trimS (upperS (t.getD 1 "")) else ""

/-- Model of `StmtCreateTable.parse`, from the already-parsed option multimap. -/
def parseCreateM (m : MM) : Except String CreateTableFields :=
  if pkNameOfM m = "" then
    Except.error "no PartitionKey, specify one using WITH pk=pkname:pktype"
  else if dataTypesContains (pkTypeOfM m) = false then
    Except.error ("invalid type <" ++ pkTypeOfM m ++
      "> for PartitionKey, accepts values are BINARY, NUMBER and STRING")
  else if dataTypesContains (skTypeOfM m) = false ∧ skNameOfM m ≠ "" then
    Except.error ("invalid type SortKey <" ++ skTypeOfM m ++
      ">, accepts values are BINARY, NUMBER and STRING")
  else
    match parseLsiList (mmLookup m "LSI") with
    | Except.error e => Except.error e
    | Except.ok lsiDefs =>
      match parseCapacity m "RCU" with
      | Except.error e => Except.error e
      | Except.ok rcu =>
        match parseCapacity m "WCU" with
        | Except.error e => Except.error e
        | Except.ok wcu =>
          Except.ok
            { pkName := pkNameOfM m, pkType := pkTypeOfM m
              skName := skNameOfM m, skType := skTypeOfM m
              lsi := lsiDefs, rcu := rcu, wcu := wcu }

/-- Model of `StmtCreateTable.parse` from the raw `withOptsStr` fragment (the statement
first runs `parseWithOpts` on it). -/
def parseCreate (withOptsStr : String) : Except String CreateTableFields :=
  parseCreateM (parseWithOpts withOptsStr)

def isOkExcept {ε α : Type} : Except ε α → Bool
  | Except.ok _ => true
  | Except.error _ => false

/-! ### The `CreateTableInput` built by `StmtCreateTable.Exec` -/

structure AttributeDefinition where
  attributeName : String
  attributeType : String
deriving DecidableEq, Repr

structure KeySchemaElement where
  attributeName : String
  keyType : String
deriving DecidableEq, Repr

structure ProjectionSpec where
  projectionType : String
  nonKeyAttributes : List String
deriving DecidableEq, Repr

structure LocalSecondaryIndex where
  indexName : String
  keySchema : List KeySchemaElement
  projection : ProjectionSpec
deriving DecidableEq, Repr

structure CreateTableInput where
  tableName : String
  attributeDefinitions : List AttributeDefinition
  keySchema : List KeySchemaElement
  localSecondaryIndexes : List LocalSecondaryIndex
  billingMode : String
  provisionedThroughput : Option (Int × Int)
deriving DecidableEq, Repr

/-- Modelled from the spec: the `keyTypes` map (declared outside the provided
sources) of key-role tags, mapping HASH and RANGE to the store's native key
types; a missing key yields the zero value `""`. -/
def keyTypes : List (String × String) :=
  [("HASH", "HASH"), ("RANGE", "RANGE")]

def keyTypesGet (t : String) : String :=
  (keyTypes.lookup t).getD ""

/-- One `types.LocalSecondaryIndex` as built in `StmtCreateTable.Exec`
(projection defaults to KEYS_ONLY; `*` means ALL; any other non-empty
projection list means INCLUDE with the comma-separated attributes). -/
def lsiToIndex (pkName : String) (d : LsiDef) : LocalSecondaryIndex :=
  let proj : ProjectionSpec :=
    if d.projectedFields = "*" then { projectionType := "ALL", nonKeyAttributes := [] }
    else if d.projectedFields ≠ "" then
      { projectionType := "INCLUDE", nonKeyAttributes := goSplit ',' d.projectedFields }
    else { projectionType := "KEYS_ONLY", nonKeyAttributes := [] }
  { indexName := d.indexName
    keySchema := [{ attributeName := pkName, keyType := keyTypesGet "HASH" },
                  { attributeName := d.fieldName, keyType := keyTypesGet "RANGE" }]
    projection := proj }

/-- The `dynamodb.CreateTableInput` assembled by `StmtCreateTable.Exec`: if
both capacity fields are zero the billing mode is PAY_PER_REQUEST, otherwise
a provisioned throughput of exactly `(rcu, wcu)` is attached (billing mode is
left at its zero value `""`). -/
def buildCreateTableInput (tableName : String) (f : CreateTableFields) : CreateTableInput :=
  let attrDefs :=
    [({ attributeName := f.pkName, attributeType := dataTypesGet f.pkType } : AttributeDefinition)] ++
      (if f.skName ≠ "" then
        [({ attributeName := f.skName, attributeType := dataTypesGet f.skType } : AttributeDefinition)]
      else []) ++
      f.lsi.map (fun d => { attributeName := d.fieldName, attributeType := dataTypesGet d.fieldType })
  let keySchema :=
    [({ attributeName := f.pkName, keyType := keyTypesGet "HASH" } : KeySchemaElement)] ++
      (if f.skName ≠ "" then
        [({ attributeName := f.skName, keyType := keyTypesGet "RANGE" } : KeySchemaElement)]
      else [])
  if f.rcu = 0 ∧ f.wcu = 0 then
    { tableName := tableName, attributeDefinitions := attrDefs, keySchema := keySchema
      localSecondaryIndexes := f.lsi.map (lsiToIndex f.pkName)
      billingMode := "PAY_PER_REQUEST", provisionedThroughput := none }
  else
    { tableName := tableName, attributeDefinitions := attrDefs, keySchema := keySchema
      localSecondaryIndexes := f.lsi.map (lsiToIndex f.pkName)
      billingMode := "", provisionedThroughput := some (f.rcu, f.wcu) }

/-! ### `StmtCreateTable.Exec` error masking and `ResultCreateTable` -/

structure ResultCreateTable where
  Successful : Bool
deriving DecidableEq, Repr

/-- Modelled from the spec: `IsAwsError` (declared outside the provided
sources) tests whether a remote error is the one named AWS error condition;
the remote outcome is modelled as `none` for success or `some code` for a
failed call with that condition code. -/
def IsAwsError (err : Option String) (code : String) : Bool :=
  match err with
  | some c => c = code
  | none => false

/-- The tail of `StmtCreateTable.Exec` after the remote `CreateTable` call:
the result's success flag is computed from the error *before* the
`if-not-exists` masking, and only `ResourceInUseException` is masked. -/
def execCreateTable (ifNotExists : Bool) (remoteErr : Option String) :
    ResultCreateTable × Option String :=
  let result : ResultCreateTable := { Successful := remoteErr.isNone }
  let err := if ifNotExists && IsAwsError remoteErr "ResourceInUseException" then none
    else remoteErr
  (result, err)

/-- Model of `ResultCreateTable.RowsAffected`: `(1, nil)` when successful, `(0, nil)`
otherwise. -/
def ResultCreateTable.RowsAffected (r : ResultCreateTable) : Int × Option String :=
  if r.Successful then (1, none) else (0, none)

/-! ### The transaction coordinator (`Conn`)

The connection's transaction-relevant state: `hasTx` is `c.tx != nil`,
`txMode` the `txMode` field, `txStmtList` the pending queue.  Opaque external
payloads (parameter values, encoded attribute values, capacity records,
response items, row data) are modelled as single-field wrappers; the external
value codec `ToAttributeValue` is passed in as a function, and the remote
`ExecuteTransaction` outcome as an `Except`. -/

inductive TxMode where
  | txNone
  | txStarted
  | txCommitting
  | txRollingBack
deriving DecidableEq, Repr

structure ParamVal where
  raw : String
deriving DecidableEq, Repr

structure AttrV where
  raw : String
deriving DecidableEq, Repr

structure CapRec where
  raw : String
deriving DecidableEq, Repr

structure ItemRec where
  raw : String
deriving DecidableEq, Repr

/-- The per-statement `dynamodb.ExecuteStatementOutput` a queued statement
receives on commit: its consumed-capacity record, and its `Items` slice
(`none` when the field is left unset). -/
structure StmtOutput where
  consumedCapacity : Option CapRec
  items : Option (List ItemRec)
deriving DecidableEq, Repr

structure TxStmt where
  query : String
  values : List ParamVal
  output : Option StmtOutput
deriving DecidableEq, Repr

structure ConnState where
  hasTx : Bool
  txMode : TxMode
  txStmtList : List TxStmt
deriving DecidableEq, Repr

inductive GoErr where
  | errNoTx
  | errTxRollingBack
  | errTxCommitting
  | errInvalidTxStage
  | errInTx
  | codecErr (ordinal : Nat) (query : String) (msg : String)
  | remoteErr (msg : String)
deriving DecidableEq, Repr

/-- The `ExecuteTransaction` output: per-statement consumed-capacity records
and per-statement responses, both indexed by queue position. -/
structure TxRemoteOut where
  consumedCapacity : List CapRec
  responses : List ItemRec
deriving DecidableEq, Repr

/-- The post-commit/rollback state set by the deferred reset in `Conn.commit`
and `Conn.rollback`: `c.tx = nil`, `c.txMode = txNone`, `c.txStmtList = nil`. -/
def connReset : ConnState :=
  { hasTx := false, txMode := TxMode.txNone, txStmtList := [] }

/-- The parameter loop of `Conn.commit` for one statement: a codec failure
aborts with an error naming the parameter's 1-based ordinal and the
statement's query text. -/
def encodeParamsGo (codec : ParamVal → Except String AttrV) (q : String) :
    Nat → List ParamVal → Except GoErr (List AttrV)
  | _, [] => Except.ok []
  | j, v :: rest =>
    match codec v with
    | Except.error e => Except.error (GoErr.codecErr (j + 1) q e)
    | Except.ok a =>
      match encodeParamsGo codec q (j + 1) rest with
      | Except.error e => Except.error e
      | Except.ok as => Except.ok (a :: as)

/-- The statement loop of `Conn.commit` building the
`types.ParameterizedStatement` batch, in queue order. -/
def encodeAllGo (codec : ParamVal → Except String AttrV) :
    List TxStmt → Except GoErr (List (String × List AttrV))
  | [] => Except.ok []
  | ts :: rest =>
    match encodeParamsGo codec ts.query 0 ts.values with
    | Except.error e => Except.error e
    | Except.ok ps =>
      match encodeAllGo codec rest with
      | Except.error e => Except.error e
      | Except.ok rs => Except.ok ((ts.query, ps) :: rs)

/-- The output-distribution loop of `Conn.commit` on remote success: the
statement at queue position `i` receives the `i`-th capacity record when one
was returned, and the `i`-th response item as a one-element `Items` slice
when one was returned. -/
def distributeGo (cc : List CapRec) (resp : List ItemRec) :
    Nat → List TxStmt → List TxStmt
  | _, [] => []
  | i, ts :: rest =>
    { ts with output := some { consumedCapacity := cc[i]?
                               items := (resp[i]?).map (fun it => [it]) } } ::
      distributeGo cc resp (i + 1) rest

/-- Model of `Conn.commit`.  Result: the connection state afterwards, the returned
error, whether the remote executor was called, and the queued statements as
the callers' retained pointers see them (outputs filled in only on remote
success).  The deferred reset runs on every path after the mode guards. -/
def ConnState.commit (c : ConnState) (codec : ParamVal → Except String AttrV)
    (remote : Except String TxRemoteOut) :
    ConnState × Option GoErr × Bool × List TxStmt :=
  if c.hasTx = false then (c, some GoErr.errNoTx, false, c.txStmtList)
  else if c.txMode = TxMode.txRollingBack then
    (c, some GoErr.errTxRollingBack, false, c.txStmtList)
  else if c.txMode ≠ TxMode.txStarted ∧ c.txMode ≠ TxMode.txCommitting then
    (c, some GoErr.errInvalidTxStage, false, c.txStmtList)
  else if c.txStmtList = [] then (connReset, none, false, c.txStmtList)
  else
    match encodeAllGo codec c.txStmtList with
    | Except.error e => (connReset, some e, false, c.txStmtList)
    | Except.ok _batch =>
      match remote with
      | Except.error msg => (connReset, some (GoErr.remoteErr msg), true, c.txStmtList)
      | Except.ok out =>
        (connReset, none, true,
          distributeGo out.consumedCapacity out.responses 0 c.txStmtList)

/-- Model of `Conn.rollback`: guards, then the deferred reset; no remote call exists on
any path (the final component is the constant `false` "remote called" flag). -/
def ConnState.rollback (c : ConnState) : ConnState × Option GoErr × Bool :=
  if c.hasTx = false then (c, some GoErr.errNoTx, false)
  else if c.txMode = TxMode.txCommitting then (c, some GoErr.errTxCommitting, false)
  else if c.txMode ≠ TxMode.txStarted ∧ c.txMode ≠ TxMode.txRollingBack then
    (c, some GoErr.errInvalidTxStage, false)
  else (connReset, none, false)

/-- Model of `Conn.BeginTx`: allocates a fresh transaction and empty queue when none is
open, otherwise returns `ErrInTx` and leaves the state unchanged. -/
def ConnState.beginTx (c : ConnState) : ConnState × Option GoErr :=
  if c.hasTx = false then
    ({ hasTx := true, txMode := TxMode.txStarted, txStmtList := [] }, none)
  else (c, some GoErr.errInTx)

/-! ### The result cursor (`ResultResultSet.Next` / `fetchNext`)

The remote executor is modelled as the sequence of responses it would return
to successive `ExecuteStatement` page fetches (`script`); `curNextToken` is
`r.stmt.output.NextToken`, `items` the locally buffered page, `read` the rows
already yielded and `limit` the declared row limit (`stmt.limit`, `0` for
none).  `nextFuel` is `Next` with fuel for the internal retry after a
successful fetch; each such retry consumes one script entry, so fuel equal to
the script length (as used by `next`) is never exhausted. -/

inductive CursorErr where
  | eof
  | remote (msg : String)
deriving DecidableEq, Repr

structure RowVal where
  raw : String
deriving DecidableEq, Repr

structure PageOut where
  items : List RowVal
  nextToken : Option String
deriving DecidableEq, Repr

structure CursorState where
  err : Option CursorErr
  items : List RowVal
  read : Nat
  limit : Nat
  curNextToken : Option String
  script : List (Except String PageOut)
deriving Repr

/-- One call of `ResultResultSet.Next`: the cursor state afterwards, the
outcome (`ok row`, or the stored/returned error — `eof` is `io.EOF`, the
exhaustion signal), and the number of remote fetches performed. -/
def nextFuel : Nat → CursorState → CursorState × Except CursorErr RowVal × Nat
  | fuel, r =>
    match r.err with
    | some e => (r, Except.error e, 0)
    | none =>
      if 0 < r.limit ∧ r.limit ≤ r.read then (r, Except.error CursorErr.eof, 0)
      else
        match r.items with
        | rowData :: rest =>
          ({ r with items := rest, read := r.read + 1 }, Except.ok rowData, 0)
        | [] =>
          match r.curNextToken with
          | none => ({ r with err := some CursorErr.eof }, Except.error CursorErr.eof, 0)
          | some _ =>
            match r.script with
            | [] =>
              ({ r with err := some (CursorErr.remote "remote call aborted") },
                Except.error (CursorErr.remote "remote call aborted"), 1)
            | resp :: restScript =>
              match resp with
              | Except.error e =>
                ({ r with err := some (CursorErr.remote e), script := restScript },
                  Except.error (CursorErr.remote e), 1)
              | Except.ok page =>
                match fuel with
                | 0 =>
                  ({ r with err := some (CursorErr.remote "remote call aborted")
                            script := restScript },
                    Except.error (CursorErr.remote "remote call aborted"), 1)
                | Nat.succ fuel' =>
                  let r2 := { r with items := page.items
                                     curNextToken := page.nextToken
                                     script := restScript }
                  let out := nextFuel fuel' r2
                  (out.1, out.2.1, out.2.2 + 1)

def next (r : CursorState) : CursorState × Except CursorErr RowVal × Nat :=
  nextFuel r.script.length r

/-- The externally visible "exhausted" states of the cursor: either `io.EOF`
has been stored in `r.err`, or the declared row limit has been reached (in
which case `Next` returns `io.EOF` before touching `r.err`). -/
def CursorExhausted (r : CursorState) : Prop :=
  r.err = some CursorErr.eof ∨ (r.err = none ∧ 0 < r.limit ∧ r.limit ≤ r.read)

/-! ### Column discovery (`ResultResultSet.init`)

Attribute values are modelled by their native kind with an opaque payload.
`nameFromAttributeValue` (declared outside the provided sources) and the
external `attributevalue.Unmarshal` / `reflect.TypeOf` composition are
modelled below. -/

inductive AttrVal where
  | avB (v : String)
  | avBool (v : Bool)
  | avBS (v : String)
  | avL (v : String)
  | avM (v : String)
  | avN (v : String)
  | avNS (v : String)
  | avNull (v : Bool)
  | avS (v : String)
  | avSS (v : String)
deriving DecidableEq, Repr

/-- Modelled from the spec: `nameFromAttributeValue` (declared outside the
provided sources) returns the value's native source-type tag, one of
B, N, S, SS, NS, BS, BOOL, L, M, NULL. -/
def nameFromAttributeValue : AttrVal → String
  | AttrVal.avB _ => "B"
  | AttrVal.avBool _ => "BOOL"
  | AttrVal.avBS _ => "BS"
  | AttrVal.avL _ => "L"
  | AttrVal.avM _ => "M"
  | AttrVal.avN _ => "N"
  | AttrVal.avNS _ => "NS"
  | AttrVal.avNull _ => "NULL"
  | AttrVal.avS _ => "S"
  | AttrVal.avSS _ => "SS"

/-- The Go type recorded by `r.columnTypes[col] = reflect.TypeOf(value)` after
`attributevalue.Unmarshal(av, &value)`: the external codec unmarshals the
NULL attribute value to a nil interface, whose `reflect.TypeOf` is the nil
`reflect.Type` (modelled as `none`); every other kind yields a non-nil type. -/
def unmarshalGoType : AttrVal → Option String
  | AttrVal.avB _ => some "[]uint8"
  | AttrVal.avBool _ => some "bool"
  | AttrVal.avBS _ => some "[][]uint8"
  | AttrVal.avL _ => some "[]any"
  | AttrVal.avM _ => some "map[string]any"
  | AttrVal.avN _ => some "float64"
  | AttrVal.avNS _ => some "[]float64"
  | AttrVal.avNull _ => none
  | AttrVal.avS _ => some "string"
  | AttrVal.avSS _ => some "[]string"

/-- One item of a returned page: its attribute map (keys are distinct in any
map the store can return). -/
abbrev RowA := List (String × AttrVal)

def alookup {β : Type} : List (String × β) → String → Option β
  | [], _ => none
  | (k, v) :: t, c => if k = c then some v else alookup t c

def aset {β : Type} : List (String × β) → String → β → List (String × β)
  | [], c, v => [(c, v)]
  | (k, w) :: t, c, v => if k = c then (k, v) :: t else (k, w) :: aset t c v

/-- The two maps filled by the column-type loop: `r.columnTypes` (values may
be the nil type) and `r.columnSourceTypes`. -/
structure TypesAcc where
  types : List (String × Option String)
  tags : List (String × String)
deriving DecidableEq, Repr

/-- The guard `r.columnTypes[col] == nil`, negated: true when a non-nil type
is already stored for the column. -/
def storedNonNil (acc : TypesAcc) (c : String) : Bool :=
  match alookup acc.types c with
  | some (some _) => true
  | _ => false

/-- The body of the `for col, av := range item` loop in
`ResultResultSet.init`: when no non-nil type is stored yet for the column,
record the unmarshalled value's type and the native source-type tag. -/
def typesStep (acc : TypesAcc) (e : String × AttrVal) : TypesAcc :=
  if storedNonNil acc e.1 then acc
  else { types := aset acc.types e.1 (unmarshalGoType e.2)
         tags := aset acc.tags e.1 (nameFromAttributeValue e.2) }

def buildColTypes (items : List RowA) : TypesAcc :=
  items.foldl (fun acc it => it.foldl typesStep acc) { types := [], tags := [] }

/-- The keys of `colMap`: every attribute key appearing in the page's items,
without duplicates. -/
def colKeys (items : List RowA) : List String :=
  ((items.map (fun it => it.map Prod.fst)).flatten).dedup

/-- Byte-lexicographic string order (`sort.Strings`), by code point. -/
def lexLe : List Char → List Char → Bool
  | [], _ => true
  | _ :: _, [] => false
  | a :: as, b :: bs =>
    if a.toNat < b.toNat then true
    else if b.toNat < a.toNat then false
    else lexLe as bs

def strLeP (a b : String) : Prop :=
  lexLe a.data b.data = true

instance : DecidableRel strLeP := fun a b => by
  unfold strLeP; infer_instance

instance : IsTotal String strLeP :=
  ⟨fun a b => by
    unfold strLeP
    generalize a.data = as
    generalize b.data = bs
    induction as generalizing bs with
    | nil => left; rfl
    | cons c cs ih =>
      cases bs with
      | nil => right; rfl
      | cons d ds =>
        rcases Nat.lt_trichotomy c.toNat d.toNat with h | h | h
        · left; simp [lexLe, h]
        · rcases ih ds with h2 | h2
          · left; simp only [lexLe]; rw [if_neg (by omega), if_neg (by omega)]; exact h2
          · right; simp only [lexLe]; rw [if_neg (by omega), if_neg (by omega)]; exact h2
        · right; simp [lexLe, h]⟩

instance : IsTrans String strLeP :=
  ⟨fun a b c hab hbc => by
    unfold strLeP at hab hbc ⊢
    generalize ha : a.data = as at hab ⊢
    generalize hb : b.data = bs at hab hbc
    generalize hc : c.data = cs at hbc ⊢
    clear ha hb hc
    revert hab hbc
    induction as generalizing bs cs with
    | nil => intro _ _; rfl
    | cons x xs ih =>
      intro hab hbc
      cases bs with
      | nil => simp [lexLe] at hab
      | cons y ys =>
        cases cs with
        | nil => simp [lexLe] at hbc
        | cons z zs =>
          simp only [lexLe] at hab hbc ⊢
          rcases Nat.lt_trichotomy x.toNat y.toNat with h1 | h1 | h1 <;>
            rcases Nat.lt_trichotomy y.toNat z.toNat with h2 | h2 | h2
          all_goals first
            | (rw [if_pos (by omega)])
            | (rw [if_neg (by omega), if_pos (by omega)] at hbc; exact absurd hbc (by simp))
            | (rw [if_neg (by omega), if_pos (by omega)] at hab; exact absurd hab (by simp))
            | (rw [if_neg (by omega), if_neg (by omega)] at hab hbc ⊢
               exact ih ys zs hab hbc)⟩

/-- The columns/types part of `ResultResultSet.init`: `preCols` is the column
list already present when `init` runs (the explicitly selected output
columns, empty when the statement named none); `output = none` models a nil
`stmt.output`, on which `init` returns without touching the items. -/
structure ResultSetCols where
  columnList : List String
  columnTypes : List (String × Option String)
  columnSourceTypes : List (String × String)
deriving Repr

def initCols (preCols : List String) (output : Option (List RowA)) : ResultSetCols :=
  match output with
  | none => { columnList := preCols, columnTypes := [], columnSourceTypes := [] }
  | some items =>
    let acc := buildColTypes items
    if preCols ≠ [] then
      { columnList := preCols, columnTypes := acc.types, columnSourceTypes := acc.tags }
    else
      { columnList := List.insertionSort strLeP (colKeys items)
        columnTypes := acc.types, columnSourceTypes := acc.tags }

/-- The items' attribute entries in iteration order (items in page order; a
store item is a map, so it holds each key at most once). -/
def rowEntries (items : List RowA) : List (String × AttrVal) :=
  items.flatten

/-- The first entry for column `c` whose value unmarshals to a non-nil Go
type. -/
def firstNonNullE (c : String) : List (String × AttrVal) → Option AttrVal
  | [] => none
  | (k, v) :: rest =>
    if k = c ∧ (unmarshalGoType v).isSome then some v else firstNonNullE c rest

def keyAppearsE (c : String) : List (String × AttrVal) → Bool
  | [] => false
  | (k, _) :: rest => if k = c then true else keyAppearsE c rest

/-! ## Theorems -/

theorem length_dropWhile_le {α : Type} (p : α → Bool) (l : List α) :
    (l.dropWhile p).length ≤ l.length := by
  induction l with
  | nil => simp
  | cons c cs ih =>
    by_cases h : p c
    · simp only [List.dropWhile_cons, h, if_true, List.length_cons]; omega
    · simp [List.dropWhile_cons, h]

theorem length_dropWhile_lt {α : Type} (p : α → Bool) (l : List α)
    (h : (l.takeWhile p).isEmpty = false) : (l.dropWhile p).length < l.length := by
  cases l with
  | nil => simp [List.takeWhile] at h
  | cons c cs =>
    by_cases hp : p c
    · have := length_dropWhile_le p cs
      simp only [List.dropWhile_cons, hp, if_true, List.length_cons]; omega
    · simp [List.takeWhile_cons, hp] at h

theorem matchCI_length :
    ∀ (pat cs rest : List Char), matchCI pat cs = some rest → rest.length ≤ cs.length := by
  intro pat
  induction pat with
  | nil => intro cs rest h; unfold matchCI at h; cases h; omega
  | cons p ps ih =>
    intro cs rest h
    cases cs with
    | nil => simp [matchCI] at h
    | cons c cs' =>
      unfold matchCI at h
      by_cases hc : c.toUpper = p
      · rw [if_pos hc] at h
        have := ih cs' rest h
        simp only [List.length_cons]; omega
      · rw [if_neg hc] at h; exact absurd h (by simp)

theorem matchSepGo_length (cs r1 : List Char) (h : matchSepGo cs = some r1) :
    r1.length < cs.length := by
  unfold matchSepGo at h
  by_cases hs : sepOk (cs.takeWhile isSepChar)
  · rw [if_pos hs] at h
    cases h
    have hne : (cs.takeWhile isSepChar).isEmpty = false := by
      unfold sepOk at hs
      cases he : (cs.takeWhile isSepChar).isEmpty
      · rfl
      · rw [he] at hs; simp at hs
    exact length_dropWhile_lt _ _ hne
  · rw [if_neg hs] at h; exact absurd h (by simp)

theorem reqRun_length (p : Char → Bool) (cs t r : List Char)
    (h : reqRun p cs = some (t, r)) : r.length ≤ cs.length := by
  unfold reqRun at h
  by_cases he : (cs.takeWhile p).isEmpty
  · rw [if_pos he] at h; exact absurd h (by simp)
  · rw [if_neg he] at h
    cases h
    exact length_dropWhile_le _ _

/-- Every successful anchored match consumes at least one character of the
suffix it matched in. -/
theorem matchWithOptHere_rest_length (cs k v rest : List Char)
    (h : matchWithOptHere cs = some (k, v, rest)) : rest.length < cs.length := by
  unfold matchWithOptHere at h
  cases h1 : matchSepGo cs with
  | none => simp [h1] at h
  | some r1 =>
    simp only [h1] at h
    cases h2 : matchCI ['W', 'I', 'T', 'H'] r1 with
    | none => simp [h2] at h
    | some r2 =>
      simp only [h2] at h
      cases h3 : reqRun isWS r2 with
      | none => simp [h3] at h
      | some wr3 =>
        obtain ⟨w, r3⟩ := wr3
        simp only [h3] at h
        cases h4 : reqRun isFieldC r3 with
        | none => simp [h4] at h
        | some kr4 =>
          obtain ⟨key, r4⟩ := kr4
          simp only [h4] at h
          by_cases h5 : (r4.dropWhile isWS).head? = some '='
          · rw [if_pos h5] at h
            cases h6 : reqRun isValueC ((r4.dropWhile isWS).tail.dropWhile isWS) with
            | none => simp [h6] at h
            | some vr8 =>
              obtain ⟨value, r8⟩ := vr8
              simp only [h6] at h
              obtain ⟨hk, hv, hr⟩ := by
                have := h
                simpa using this
              subst hr
              have e1 := matchSepGo_length cs r1 h1
              have e2 := matchCI_length _ r1 r2 h2
              have e3 := reqRun_length isWS r2 w r3 h3
              have e4 := reqRun_length isFieldC r3 key r4 h4
              have e5 := length_dropWhile_le isWS r4
              have e6 : (r4.dropWhile isWS).tail.length ≤ (r4.dropWhile isWS).length :=
                List.length_tail _ ▸ Nat.sub_le _ _
              have e7 := length_dropWhile_le isWS (r4.dropWhile isWS).tail
              have e8 := reqRun_length isValueC _ value r8 h6
              omega
          · rw [if_neg h5] at h; exact absurd h (by simp)

theorem findWithOpt_nil : findWithOpt [] = none := by decide

theorem findAfterNl_len_pos :
    ∀ (cs k v : List Char) (len : Nat), findAfterNl cs = some (k, v, len) → 1 ≤ len := by
  intro cs
  induction cs with
  | nil => intro k v len h; simp [findAfterNl] at h
  | cons c rest ih =>
    intro k v len h
    simp only [findAfterNl] at h
    by_cases hc : c = '\n'
    · rw [if_pos hc] at h
      cases hm : matchWithOptHere rest with
      | none =>
        rw [hm] at h
        exact ih k v len h
      | some kvr =>
        obtain ⟨k0, v0, r⟩ := kvr
        simp only [hm] at h
        obtain ⟨hk, hv, hlen⟩ := by
          have := h
          simpa using this
        have := matchWithOptHere_rest_length rest k0 v0 r hm
        omega
    · rw [if_neg hc] at h
      exact ih k v len h

/-- Every match found by `FindStringSubmatch` has positive length (its
separator group consumes at least one character), so the front slice always
makes progress and fuel equal to the input length never runs out. -/
theorem findWithOpt_len_pos (cs k v : List Char) (len : Nat)
    (h : findWithOpt cs = some (k, v, len)) : 1 ≤ len ∧ 1 ≤ cs.length := by
  unfold findWithOpt at h
  cases hm : matchWithOptHere cs with
  | some kvr =>
    obtain ⟨k0, v0, rest⟩ := kvr
    simp only [hm] at h
    obtain ⟨hk, hv, hlen⟩ := by
      have := h
      simpa using this
    have := matchWithOptHere_rest_length cs k0 v0 rest hm
    omega
  | none =>
    simp only [hm] at h
    have h1 := findAfterNl_len_pos cs k v len h
    have h2 : cs ≠ [] := by
      intro hnil
      subst hnil
      simp [findAfterNl] at h
    cases cs with
    | nil => exact absurd rfl h2
    | cons c r => exact ⟨h1, by simp⟩

/-- Fuel fidelity: with fuel at least the input length, one more unit of fuel
never changes the result, so `parseWithOpts` computes the full Go loop. -/
theorem parseLoopFuel_succ_stable :
    ∀ (fuel : Nat) (cs : List Char) (m : MM), cs.length ≤ fuel →
      parseLoopFuel (fuel + 1) cs m = parseLoopFuel fuel cs m := by
  intro fuel
  induction fuel with
  | zero =>
    intro cs m h
    have : cs = [] := by cases cs with
      | nil => rfl
      | cons c cs2 => simp at h
    subst this
    simp [parseLoopFuel, findWithOpt_nil]
  | succ g ih =>
    intro cs m h
    show parseLoopFuel (g + 1 + 1) cs m = parseLoopFuel (g + 1) cs m
    unfold parseLoopFuel
    cases hm : findWithOpt cs with
    | none => rfl
    | some kvl =>
      obtain ⟨k, v, len⟩ := kvl
      obtain ⟨h1, h2⟩ := findWithOpt_len_pos cs k v len hm
      refine ih (cs.drop len) _ ?_
      rw [List.length_drop]
      omega

theorem mmLookup_mmAppend (m : MM) (k k' : String) (v : String) :
    mmLookup (mmAppend m k' v) k =
      if k' = k then mmLookup m k ++ [v] else mmLookup m k := by
  induction m with
  | nil =>
    by_cases h : k' = k <;> simp [mmAppend, mmLookup, h]
  | cons p t ih =>
    obtain ⟨k0, vs⟩ := p
    by_cases h0 : k0 = k'
    · subst h0
      by_cases h : k0 = k <;> simp [mmAppend, mmLookup, h]
    · by_cases h : k0 = k
      · subst h
        have h2 : ¬k' = k0 := fun hh => h0 hh.symm
        simp [mmAppend, mmLookup, h0, h2]
      · simp [mmAppend, mmLookup, h0, h, ih]

theorem parseLoopFuel_lookup :
    ∀ (fuel : Nat) (cs : List Char) (m : MM) (k : String),
      mmLookup (parseLoopFuel fuel cs m) k =
        mmLookup m k ++ tokensFilter k (findTokensFuel fuel cs) := by
  intro fuel
  induction fuel with
  | zero => intro cs m k; simp [parseLoopFuel, findTokensFuel, tokensFilter]
  | succ g ih =>
    intro cs m k
    unfold parseLoopFuel findTokensFuel
    cases hm : findWithOpt cs with
    | none => simp [tokensFilter]
    | some kvl =>
      obtain ⟨kk, v, len⟩ := kvl
      rw [ih (cs.drop len) _ k, mmLookup_mmAppend]
      by_cases h : normKey kk = k
      · simp [tokensFilter, h]
      · simp [tokensFilter, h]

theorem dropWhile_isSuffix {α : Type} (p : α → Bool) (l : List α) :
    l.dropWhile p <:+ l := by
  induction l with
  | nil => exact List.suffix_refl []
  | cons c cs ih =>
    by_cases h : p c
    · rw [List.dropWhile_cons, if_pos h]
      exact ih.trans (List.suffix_cons c cs)
    · rw [List.dropWhile_cons, if_neg h]

theorem tail_isSuffix {α : Type} (l : List α) : l.tail <:+ l := by
  cases l with
  | nil => exact List.suffix_refl []
  | cons c cs => exact List.suffix_cons c cs

theorem matchCI_suffix :
    ∀ (pat cs rest : List Char), matchCI pat cs = some rest → rest <:+ cs := by
  intro pat
  induction pat with
  | nil =>
    intro cs rest h
    unfold matchCI at h
    cases h
    exact List.suffix_refl cs
  | cons p ps ih =>
    intro cs rest h
    cases cs with
    | nil => simp [matchCI] at h
    | cons c cs2 =>
      unfold matchCI at h
      by_cases hc : c.toUpper = p
      · rw [if_pos hc] at h
        exact (ih cs2 rest h).trans (List.suffix_cons c cs2)
      · rw [if_neg hc] at h; exact absurd h (by simp)

theorem matchSepGo_suffix (cs r1 : List Char) (h : matchSepGo cs = some r1) :
    r1 <:+ cs := by
  unfold matchSepGo at h
  by_cases hs : sepOk (cs.takeWhile isSepChar)
  · rw [if_pos hs] at h
    cases h
    exact dropWhile_isSuffix isSepChar cs
  · rw [if_neg hs] at h; exact absurd h (by simp)

theorem reqRun_suffix (p : Char → Bool) (cs t r : List Char)
    (h : reqRun p cs = some (t, r)) : r <:+ cs := by
  unfold reqRun at h
  by_cases he : (cs.takeWhile p).isEmpty
  · rw [if_pos he] at h; exact absurd h (by simp)
  · rw [if_neg he] at h
    cases h
    exact dropWhile_isSuffix p cs

/-- The rest returned by an anchored match is a true suffix of the matched
suffix: the matched text is exactly the consumed prefix, so `len(matches[0])`
equals the length difference. -/
theorem matchWithOptHere_suffix (cs k v rest : List Char)
    (h : matchWithOptHere cs = some (k, v, rest)) : rest <:+ cs := by
  unfold matchWithOptHere at h
  cases h1 : matchSepGo cs with
  | none => simp [h1] at h
  | some r1 =>
    simp only [h1] at h
    cases h2 : matchCI ['W', 'I', 'T', 'H'] r1 with
    | none => simp [h2] at h
    | some r2 =>
      simp only [h2] at h
      cases h3 : reqRun isWS r2 with
      | none => simp [h3] at h
      | some wr3 =>
        obtain ⟨w, r3⟩ := wr3
        simp only [h3] at h
        cases h4 : reqRun isFieldC r3 with
        | none => simp [h4] at h
        | some kr4 =>
          obtain ⟨key, r4⟩ := kr4
          simp only [h4] at h
          by_cases h5 : (r4.dropWhile isWS).head? = some '='
          · rw [if_pos h5] at h
            cases h6 : reqRun isValueC ((r4.dropWhile isWS).tail.dropWhile isWS) with
            | none => simp [h6] at h
            | some vr8 =>
              obtain ⟨value, r8⟩ := vr8
              simp only [h6] at h
              obtain ⟨hk, hv, hr⟩ := by
                have := h
                simpa using this
              subst hr
              have s1 : r1 <:+ cs := matchSepGo_suffix cs r1 h1
              have s2 : r2 <:+ r1 := matchCI_suffix _ r1 r2 h2
              have s3 : r3 <:+ r2 := reqRun_suffix isWS r2 w r3 h3
              have s4 : r4 <:+ r3 := reqRun_suffix isFieldC r3 key r4 h4
              have s5 : r4.dropWhile isWS <:+ r4 := dropWhile_isSuffix isWS r4
              have s6 : (r4.dropWhile isWS).tail <:+ r4.dropWhile isWS :=
                tail_isSuffix _
              have s7 : (r4.dropWhile isWS).tail.dropWhile isWS <:+
                  (r4.dropWhile isWS).tail := dropWhile_isSuffix isWS _
              have s8 : r8 <:+ (r4.dropWhile isWS).tail.dropWhile isWS :=
                reqRun_suffix isValueC _ value r8 h6
              exact s8.trans (s7.trans (s6.trans (s5.trans (s4.trans
                (s3.trans (s2.trans s1))))))
          · rw [if_neg h5] at h; exact absurd h (by simp)

theorem suffix_drop_eq {l2 l1 : List Char} (h : l2 <:+ l1) :
    l1.drop (l1.length - l2.length) = l2 := by
  obtain ⟨t, rfl⟩ := h
  have hl : (t ++ l2).length - l2.length = t.length := by
    rw [List.length_append]; omega
  rw [hl]
  exact List.drop_left t l2

theorem findAfterNl_no_nl : ∀ (cs : List Char), '\n' ∉ cs → findAfterNl cs = none := by
  intro cs
  induction cs with
  | nil => intro _; rfl
  | cons c rest ih =>
    intro h
    have hc : ¬c = '\n' := by
      intro hh
      subst hh
      exact h (List.mem_cons_self _ _)
    have hrest : '\n' ∉ rest := fun hmem => h (List.mem_cons_of_mem c hmem)
    simp only [findAfterNl]
    rw [if_neg hc]
    exact ih hrest

/-- On a fragment without interior newlines the only `(?m)^` anchor is the
start of the fragment, so the Go loop coincides with the leading-match
reading. -/
theorem findTokensFuel_eq_withTokensFuel :
    ∀ (fuel : Nat) (cs : List Char), '\n' ∉ cs →
      findTokensFuel fuel cs = withTokensFuel fuel cs := by
  intro fuel
  induction fuel with
  | zero => intro cs h; rfl
  | succ g ih =>
    intro cs h
    unfold findTokensFuel withTokensFuel
    cases hm : matchWithOptHere cs with
    | none =>
      have h0 : findWithOpt cs = none := by
        unfold findWithOpt
        rw [hm]
        exact findAfterNl_no_nl cs h
      simp only [h0]
    | some kvr =>
      obtain ⟨k, v, rest⟩ := kvr
      have h0 : findWithOpt cs = some (k, v, cs.length - rest.length) := by
        unfold findWithOpt
        rw [hm]
      simp only [h0]
      have hsuf := matchWithOptHere_suffix cs k v rest hm
      have hdrop : cs.drop (cs.length - rest.length) = rest := suffix_drop_eq hsuf
      have hrest : '\n' ∉ rest := fun hmem => h (hsuf.subset hmem)
      rw [hdrop, ih rest hrest]

/-- C5 (counterexample): on a fragment where unmatched text is followed by a
newline and a further option, the leading-match reading of the claim ends
with a partial multimap that lacks `C`, but the code's multimap contains `C`:
the pattern's `(?m)` flag lets `FindStringSubmatch` match right after the
interior newline and the loop continues, front-slicing the fragment by the
match's length — so the parser does not merely match leading tokens and stop
at unmatched trailing text. -/
theorem c5_counterexample :
    tokensFilter "C" (withTokens (" WITH A=b xxx\n WITH C=d").data) = [] ∧
    mmLookup (parseWithOpts " WITH A=b xxx\n WITH C=d") "C" = ["d"] ∧
    mmLookup (parseWithOpts " WITH A=b xxx\n WITH C=d") "A" = ["b"] := by
  decide

/-- C5 (amended): the WITH-clause option parser never fails: on any input it
produces exactly the multimap obtained by repeatedly taking the leftmost
line-anchored `WITH key=value` match — at the start of the fragment or right
after a newline, because of the pattern's multiline flag — upper-casing the
key, stripping a trailing comma from the value, and dropping the match's
length from the front of the fragment; for every key, lookup yields that
key's values in match order (repeated keys accumulate).  On a fragment
without interior newlines every match is a leading one, and unmatched
trailing text merely ends parsing with a partial multimap. -/
theorem c5_with_opts_parsing (s : String) (k : String) :
    mmLookup (parseWithOpts s) k = tokensFilter k (findTokens s.data) ∧
    ('\n' ∉ s.data →
      mmLookup (parseWithOpts s) k = tokensFilter k (withTokens s.data)) := by
  constructor
  · unfold parseWithOpts findTokens
    rw [parseLoopFuel_lookup]
    simp [mmLookup]
  · intro h
    unfold parseWithOpts withTokens
    rw [parseLoopFuel_lookup, findTokensFuel_eq_withTokensFuel s.data.length s.data h]
    simp [mmLookup]

theorem c5_witness :
    mmLookup (parseWithOpts " WITH PK=id:S, WITH RCU=3") "RCU" =
      tokensFilter "RCU" (withTokens (" WITH PK=id:S, WITH RCU=3").data) :=
  (c5_with_opts_parsing " WITH PK=id:S, WITH RCU=3" "RCU").2 (by decide)

/-- C1 (counterexample): for a `CREATE TABLE IF NOT EXISTS` whose remote call
fails with `ResourceInUseException`, `Exec` does return no error, but the
returned result's success flag is `false` — it was computed from the remote
error before the masking — so `RowsAffected` reports 0, not 1 as claimed. -/
theorem c1_counterexample :
    (execCreateTable true (some "ResourceInUseException")).2 = none ∧
    (execCreateTable true (some "ResourceInUseException")).1.Successful = false ∧
    ((execCreateTable true (some "ResourceInUseException")).1.RowsAffected).1 = 0 := by
  decide

/-- C1 (amended): for every CREATE TABLE prepared with IF NOT EXISTS, if the
remote create call fails with `ResourceInUseException` then `Exec` returns no
error but the result's success flag is `false`, so `RowsAffected` reports 0;
no other remote error condition is masked (whenever the flag is unset or the
error is a different condition, the error is returned unchanged); on remote
success the flag is `true` and `RowsAffected` reports 1. -/
theorem c1_if_not_exists_masking (ine : Bool) (remoteErr : Option String) :
    (ine = true → remoteErr = some "ResourceInUseException" →
      (execCreateTable ine remoteErr).2 = none ∧
      (execCreateTable ine remoteErr).1.Successful = false ∧
      ((execCreateTable ine remoteErr).1.RowsAffected).1 = 0) ∧
    ((ine = true → remoteErr ≠ some "ResourceInUseException") →
      (execCreateTable ine remoteErr).2 = remoteErr) ∧
    (remoteErr = none →
      (execCreateTable ine remoteErr).2 = none ∧
      (execCreateTable ine remoteErr).1.Successful = true ∧
      ((execCreateTable ine remoteErr).1.RowsAffected).1 = 1) := by
  refine ⟨?_, ?_, ?_⟩
  · intro hi hr; subst hi; subst hr; decide
  · intro hmask
    cases hi : ine with
    | false => simp [execCreateTable]
    | true =>
      rw [hi] at hmask
      have hne := hmask rfl
      cases hr : remoteErr with
      | none => simp [execCreateTable, IsAwsError]
      | some c =>
        rw [hr] at hne
        have hc : ¬c = "ResourceInUseException" := fun hcc => hne (by rw [hcc])
        simp [execCreateTable, IsAwsError, hc]
  · intro hr; subst hr; simp [execCreateTable, IsAwsError, ResultCreateTable.RowsAffected]

theorem c1_witness :
    (execCreateTable true (some "ThrottlingException")).2 = some "ThrottlingException" :=
  (c1_if_not_exists_masking true (some "ThrottlingException")).2.1 (fun _ => by decide)

theorem parseCapacity_ok (m : MM) (key : String) (v : Int)
    (h : parseCapacity m key = Except.ok v) :
    (mmContains m key = false → v = 0) ∧
    (mmContains m key = true → goParseInt64 (mmFirst m key) = some v ∧ 0 < v) := by
  unfold parseCapacity at h
  by_cases hc : mmContains m key = true
  · rw [if_pos hc] at h
    cases hp : goParseInt64 (mmFirst m key) with
    | none => simp [hp] at h
    | some w =>
      simp only [hp] at h
      by_cases hw : w ≤ 0
      · rw [if_pos hw] at h; exact absurd h (by simp)
      · rw [if_neg hw] at h
        cases h
        exact ⟨fun hcf => absurd hc (by rw [hcf]; simp), fun _ => ⟨rfl, by omega⟩⟩
  · rw [if_neg hc] at h
    cases h
    exact ⟨fun _ => rfl, fun hct => absurd hct hc⟩

/-- Successful `StmtCreateTable.parse` determines every field from the option
multimap and implies every validation guard passed. -/
theorem parseCreateM_ok_inv (m : MM) (f : CreateTableFields)
    (h : parseCreateM m = Except.ok f) :
    f.pkName = pkNameOfM m ∧ f.pkType = pkTypeOfM m ∧
    f.skName = skNameOfM m ∧ f.skType = skTypeOfM m ∧
    pkNameOfM m ≠ "" ∧
    dataTypesContains (pkTypeOfM m) = true ∧
    (dataTypesContains (skTypeOfM m) = false → skNameOfM m = "") ∧
    parseLsiList (mmLookup m "LSI") = Except.ok f.lsi ∧
    parseCapacity m "RCU" = Except.ok f.rcu ∧
    parseCapacity m "WCU" = Except.ok f.wcu := by
  unfold parseCreateM at h
  by_cases h1 : pkNameOfM m = ""
  · rw [if_pos h1] at h; exact absurd h (by simp)
  rw [if_neg h1] at h
  by_cases h2 : dataTypesContains (pkTypeOfM m) = false
  · rw [if_pos h2] at h; exact absurd h (by simp)
  rw [if_neg h2] at h
  have h2' : dataTypesContains (pkTypeOfM m) = true := by
    cases hb : dataTypesContains (pkTypeOfM m)
    · exact absurd hb h2
    · rfl
  by_cases h3 : dataTypesContains (skTypeOfM m) = false ∧ skNameOfM m ≠ ""
  · rw [if_pos h3] at h; exact absurd h (by simp)
  rw [if_neg h3] at h
  have h3' : dataTypesContains (skTypeOfM m) = false → skNameOfM m = "" := by
    intro hA; by_contra hB; exact h3 ⟨hA, hB⟩
  cases h4 : parseLsiList (mmLookup m "LSI") with
  | error e => simp [h4] at h
  | ok lsiDefs =>
    simp only [h4] at h
    cases h5 : parseCapacity m "RCU" with
    | error e => simp [h5] at h
    | ok rcu =>
      simp only [h5] at h
      cases h6 : parseCapacity m "WCU" with
      | error e => simp [h6] at h
      | ok wcu =>
        simp only [h6] at h
        injection h with hfe
        subst hfe
        exact ⟨rfl, rfl, rfl, rfl, h1, h2', h3', rfl, rfl, rfl⟩

/-- C2 (counterexample): a `CREATE TABLE` with the RCU option present and
zero does not parse successfully — the code rejects a present, non-positive
capacity value — so "both absent or zero ⇒ on-demand" fails for present
zeros. -/
theorem c2_counterexample :
    mmFirst (parseWithOpts " WITH PK=id:STRING, WITH RCU=0") "RCU" = "0" ∧
    isOkExcept (parseCreate " WITH PK=id:STRING, WITH RCU=0") = false := by
  decide

/-- C2 (amended): an absent RCU/WCU option leaves the parsed capacity 0; a
present one must parse as a positive int64 (so a present zero fails parsing)
and is carried exactly; the request is built with PAY_PER_REQUEST billing and
no provisioned throughput iff both parsed capacities are zero — i.e. both
options absent — and otherwise carries exactly the parsed `(rcu, wcu)` pair
in provisioned mode. -/
theorem c2_capacity_billing (m : MM) (f : CreateTableFields)
    (h : parseCreateM m = Except.ok f) :
    (mmContains m "RCU" = false → f.rcu = 0) ∧
    (mmContains m "WCU" = false → f.wcu = 0) ∧
    (mmContains m "RCU" = true → goParseInt64 (mmFirst m "RCU") = some f.rcu ∧ 0 < f.rcu) ∧
    (mmContains m "WCU" = true → goParseInt64 (mmFirst m "WCU") = some f.wcu ∧ 0 < f.wcu) ∧
    (∀ tn : String,
      (f.rcu = 0 ∧ f.wcu = 0 →
        (buildCreateTableInput tn f).billingMode = "PAY_PER_REQUEST" ∧
        (buildCreateTableInput tn f).provisionedThroughput = none) ∧
      (¬(f.rcu = 0 ∧ f.wcu = 0) →
        (buildCreateTableInput tn f).billingMode = "" ∧
        (buildCreateTableInput tn f).provisionedThroughput = some (f.rcu, f.wcu))) := by
  obtain ⟨-, -, -, -, -, -, -, -, hr, hw⟩ := parseCreateM_ok_inv m f h
  have hrcu := parseCapacity_ok m "RCU" f.rcu hr
  have hwcu := parseCapacity_ok m "WCU" f.wcu hw
  refine ⟨hrcu.1, hwcu.1, hrcu.2, hwcu.2, ?_⟩
  intro tn
  constructor
  · intro hz
    unfold buildCreateTableInput
    rw [if_pos hz]
    exact ⟨rfl, rfl⟩
  · intro hz
    unfold buildCreateTableInput
    rw [if_neg hz]
    exact ⟨rfl, rfl⟩

theorem c2_witness :
    (buildCreateTableInput "t"
      { pkName := "id", pkType := "STRING", skName := "", skType := ""
        lsi := [], rcu := 2, wcu := 3 }).provisionedThroughput = some (2, 3) := by
  have h := c2_capacity_billing (parseWithOpts " WITH PK=id:STRING, WITH RCU=2, WITH WCU=3")
    { pkName := "id", pkType := "STRING", skName := "", skType := ""
      lsi := [], rcu := 2, wcu := 3 } (by rfl)
  exact ((h.2.2.2.2 "t").2 (by decide)).2

theorem parseLsiOne_ok_valid (v : String) (d : LsiDef) (h : parseLsiOne v = Except.ok d) :
    d = mkLsiDef v ∧ (d.indexName ≠ "" → dataTypesContains d.fieldType = true) := by
  unfold parseLsiOne at h
  by_cases h1 : (mkLsiDef v).indexName ≠ ""
  · rw [if_pos h1] at h
    by_cases h2 : (mkLsiDef v).fieldName = ""
    · rw [if_pos h2] at h; exact absurd h (by simp)
    rw [if_neg h2] at h
    by_cases h3 : dataTypesContains (mkLsiDef v).fieldType = false
    · rw [if_pos h3] at h; exact absurd h (by simp)
    rw [if_neg h3] at h
    cases h
    refine ⟨rfl, fun _ => ?_⟩
    cases hb : dataTypesContains (mkLsiDef v).fieldType
    · exact absurd hb h3
    · rfl
  · rw [if_neg h1] at h
    cases h
    exact ⟨rfl, fun hne => absurd hne h1⟩

theorem parseLsiList_ok (l : List String) (ds : List LsiDef)
    (h : parseLsiList l = Except.ok ds) :
    ds = l.map mkLsiDef ∧ ∀ v ∈ l, isOkExcept (parseLsiOne v) = true := by
  induction l generalizing ds with
  | nil =>
    unfold parseLsiList at h
    cases h
    exact ⟨rfl, by simp⟩
  | cons v rest ih =>
    unfold parseLsiList at h
    cases hv : parseLsiOne v with
    | error e => simp [hv] at h
    | ok d =>
      simp only [hv] at h
      cases hr : parseLsiList rest with
      | error e => simp [hr] at h
      | ok ds' =>
        simp only [hr] at h
        cases h
        obtain ⟨hmap, hall⟩ := ih ds' hr
        obtain ⟨hd, -⟩ := parseLsiOne_ok_valid v d hv
        refine ⟨by rw [List.map_cons, ← hmap, hd], ?_⟩
        intro w hw
        rcases List.mem_cons.mp hw with hw | hw
        · subst hw; rw [hv]; rfl
        · exact hall w hw

/-- C9 (counterexample): the type tag `FOO` given for a sort key whose name
part is empty does not make parse fail — the sort-key type check is skipped
whenever the extracted sort-key name is empty — so not every non-whitelisted
tag is rejected. -/
theorem c9_counterexample :
    parseCreate " WITH PK=id:STRING, WITH SK=:FOO" =
      Except.ok { pkName := "id", pkType := "STRING", skName := "", skType := "FOO"
                  lsi := [], rcu := 0, wcu := 0 } ∧
    dataTypesContains "FOO" = false :=
  ⟨by rfl, by decide⟩

/-- C9 (amended): exactly the three tags BINARY, NUMBER, STRING
(case-insensitively, since parse upper-cases the extracted tag before the
whitelist lookup) are accepted for the partition key, for a sort key whose
name is non-empty, and for a secondary-index field whose index name is
non-empty; in those positions any other tag makes parse fail, before any
remote call (parse is pure), with a validation error naming the offending
field or index; a sort-key or index definition with an empty name skips the
type check. -/
theorem c9_type_tags (m : MM) :
    (∀ f, parseCreateM m = Except.ok f →
      dataTypesContains f.pkType = true ∧
      (f.skName ≠ "" → dataTypesContains f.skType = true) ∧
      (∀ d ∈ f.lsi, d.indexName ≠ "" → dataTypesContains d.fieldType = true)) ∧
    (∀ t : String, dataTypesContains t = true ↔
      t = "BINARY" ∨ t = "NUMBER" ∨ t = "STRING") ∧
    (pkNameOfM m ≠ "" → dataTypesContains (pkTypeOfM m) = false →
      parseCreateM m = Except.error ("invalid type <" ++ pkTypeOfM m ++
        "> for PartitionKey, accepts values are BINARY, NUMBER and STRING")) ∧
    (∀ v : String, (mkLsiDef v).indexName ≠ "" → (mkLsiDef v).fieldName ≠ "" →
      dataTypesContains (mkLsiDef v).fieldType = false →
      parseLsiOne v = Except.error ("invalid type <" ++ (mkLsiDef v).fieldType ++
        "> of LSI <" ++ (mkLsiDef v).indexName ++
        ">, accepts values are BINARY, NUMBER and STRING")) := by
  refine ⟨?_, ?_, ?_, ?_⟩
  · intro f h
    obtain ⟨-, hpt, hsn, hst, -, h2', h3', hlsi, -, -⟩ := parseCreateM_ok_inv m f h
    refine ⟨by rw [hpt]; exact h2', ?_, ?_⟩
    · intro hne
      cases hb : dataTypesContains f.skType
      · rw [hst] at hb
        exact absurd (hsn ▸ h3' hb) hne
      · rfl
    · intro d hd hdne
      obtain ⟨hmap, hall⟩ := parseLsiList_ok _ _ hlsi
      rw [hmap] at hd
      obtain ⟨v, hv, hdv⟩ := List.mem_map.mp hd
      have hok := hall v hv
      cases hpo : parseLsiOne v with
      | error e => rw [hpo] at hok; exact absurd hok (by simp [isOkExcept])
      | ok d' =>
        obtain ⟨hd', hvalid⟩ := parseLsiOne_ok_valid v d' hpo
        rw [hd', hdv] at hvalid
        exact hvalid hdne
  · intro t
    constructor
    · intro h
      simp only [dataTypesContains, dataTypes, List.lookup, Option.isSome] at h
      by_cases h1 : t = "BINARY"
      · exact Or.inl h1
      by_cases h2 : t = "NUMBER"
      · exact Or.inr (Or.inl h2)
      by_cases h3 : t = "STRING"
      · exact Or.inr (Or.inr h3)
      rw [show (t == "BINARY") = false by simp [h1],
        show (t == "NUMBER") = false by simp [h2],
        show (t == "STRING") = false by simp [h3]] at h
      simp at h
    · rintro (rfl | rfl | rfl) <;> decide
  · intro h1 h2
    unfold parseCreateM
    rw [if_neg h1, if_pos h2]
  · intro v h1 h2 h3
    unfold parseLsiOne
    rw [if_pos h1, if_neg h2, if_pos h3]

theorem c9_witness :
    parseCreateM (parseWithOpts " WITH PK=id:bogus") =
      Except.error ("invalid type <" ++ pkTypeOfM (parseWithOpts " WITH PK=id:bogus") ++
        "> for PartitionKey, accepts values are BINARY, NUMBER and STRING") :=
  (c9_type_tags (parseWithOpts " WITH PK=id:bogus")).2.2.1 (by decide) (by decide)

/-- C10: an `LSI` option value whose text before the first colon is empty
yields a definition with empty index name for which the field-name and
type-whitelist checks are skipped; the definition is still appended to the
statement's index list by a successful parse, and `Exec` puts one local
secondary index with that empty name into the create-table request, so the
definition reaches the remote call without any client-side error. -/
theorem c10_empty_lsi_name (v : String)
    (h : trimS ((splitN ':' 4 v).headD "") = "") :
    parseLsiOne v = Except.ok (mkLsiDef v) ∧
    (mkLsiDef v).indexName = "" ∧
    (∀ m f, parseCreateM m = Except.ok f → v ∈ mmLookup m "LSI" → mkLsiDef v ∈ f.lsi) ∧
    (∀ tn f, mkLsiDef v ∈ f.lsi →
      "" ∈ (buildCreateTableInput tn f).localSecondaryIndexes.map
        LocalSecondaryIndex.indexName) := by
  have hIdx : (mkLsiDef v).indexName = "" := h
  refine ⟨?_, hIdx, ?_, ?_⟩
  · unfold parseLsiOne
    rw [if_neg (by rw [hIdx]; simp)]
  · intro m f hp hv
    obtain ⟨-, -, -, -, -, -, -, hlsi, -, -⟩ := parseCreateM_ok_inv m f hp
    obtain ⟨hmap, -⟩ := parseLsiList_ok _ _ hlsi
    rw [hmap]
    exact List.mem_map_of_mem mkLsiDef hv
  · intro tn f hmem
    have hls : (buildCreateTableInput tn f).localSecondaryIndexes =
        f.lsi.map (lsiToIndex f.pkName) := by
      unfold buildCreateTableInput
      by_cases hz : f.rcu = 0 ∧ f.wcu = 0
      · rw [if_pos hz]
      · rw [if_neg hz]
    rw [hls, List.map_map]
    refine List.mem_map.mpr ⟨mkLsiDef v, hmem, ?_⟩
    show (lsiToIndex f.pkName (mkLsiDef v)).indexName = ""
    exact hIdx

theorem c10_witness :
    parseLsiOne ":f1:FOO" = Except.ok (mkLsiDef ":f1:FOO") ∧
    (mkLsiDef ":f1:FOO").indexName = "" :=
  ⟨(c10_empty_lsi_name ":f1:FOO" (by decide)).1,
   (c10_empty_lsi_name ":f1:FOO" (by decide)).2.1⟩

theorem distributeGo_length (cc : List CapRec) (resp : List ItemRec) :
    ∀ (l : List TxStmt) (j : Nat), (distributeGo cc resp j l).length = l.length := by
  intro l
  induction l with
  | nil => intro j; rfl
  | cons ts rest ih => intro j; simp [distributeGo, ih]

theorem distributeGo_getElem (cc : List CapRec) (resp : List ItemRec) :
    ∀ (l : List TxStmt) (j i : Nat),
      (distributeGo cc resp j l)[i]? =
        (l[i]?).map (fun ts =>
          { ts with output := some { consumedCapacity := cc[j + i]?
                                     items := (resp[j + i]?).map (fun it => [it]) } }) := by
  intro l
  induction l with
  | nil => intro j i; simp [distributeGo]
  | cons ts rest ih =>
    intro j i
    cases i with
    | zero => simp [distributeGo]
    | succ i' =>
      simp only [distributeGo, List.getElem?_cons_succ]
      rw [ih (j + 1) i']
      have h : j + 1 + i' = j + (i' + 1) := by omega
      rw [h]

/-- After the mode guards pass from the started state, every path of
`Conn.commit` runs the deferred reset. -/
theorem commit_post_guard (codec : ParamVal → Except String AttrV)
    (remote : Except String TxRemoteOut) (c : ConnState)
    (h1 : c.hasTx = true) (h2 : c.txMode = TxMode.txStarted) :
    (c.commit codec remote).1 = connReset := by
  unfold ConnState.commit
  rw [if_neg (by rw [h1]; simp), if_neg (by rw [h2]; simp), if_neg (by rw [h2]; simp)]
  by_cases he : c.txStmtList = []
  · rw [if_pos he]
  · rw [if_neg he]
    cases encodeAllGo codec c.txStmtList with
    | error e => rfl
    | ok batch =>
      cases remote with
      | error msg => rfl
      | ok out => rfl

theorem beginTx_connReset :
    (connReset.beginTx).2 = none ∧ (connReset.beginTx).1.txMode = TxMode.txStarted := by
  decide

/-- C4: every commit attempted from the started transaction state — whatever
the outcome (success, codec failure, remote failure) — leaves the connection
with transaction state none and an empty queue, from which `BeginTx`
immediately starts a new transaction; a commit with an empty queue succeeds
without calling the remote executor. -/
theorem c4_commit_resets (codec : ParamVal → Except String AttrV)
    (remote : Except String TxRemoteOut) (c : ConnState)
    (h1 : c.hasTx = true) (h2 : c.txMode = TxMode.txStarted) :
    (c.commit codec remote).1 = connReset ∧
    ((c.commit codec remote).1.beginTx).2 = none ∧
    ((c.commit codec remote).1.beginTx).1.txMode = TxMode.txStarted ∧
    (c.txStmtList = [] →
      (c.commit codec remote).2.1 = none ∧ (c.commit codec remote).2.2.1 = false) := by
  have hres := commit_post_guard codec remote c h1 h2
  refine ⟨hres, by rw [hres]; exact beginTx_connReset.1, by rw [hres]; exact beginTx_connReset.2, ?_⟩
  intro he
  unfold ConnState.commit
  rw [if_neg (by rw [h1]; simp), if_neg (by rw [h2]; simp), if_neg (by rw [h2]; simp),
    if_pos he]
  exact ⟨rfl, rfl⟩

theorem c4_witness :
    (ConnState.commit { hasTx := true, txMode := TxMode.txStarted, txStmtList := [] }
        (fun v => Except.ok { raw := v.raw })
        (Except.ok { consumedCapacity := [], responses := [] })).2.1 = none ∧
    (ConnState.commit { hasTx := true, txMode := TxMode.txStarted, txStmtList := [] }
        (fun v => Except.ok { raw := v.raw })
        (Except.ok { consumedCapacity := [], responses := [] })).2.2.1 = false :=
  (c4_commit_resets (fun v => Except.ok { raw := v.raw })
    (Except.ok { consumedCapacity := [], responses := [] })
    { hasTx := true, txMode := TxMode.txStarted, txStmtList := [] } rfl rfl).2.2.2 rfl

/-- C3: a commit from the started state with a non-empty queue whose batch
encodes successfully and succeeds remotely distributes outputs by queue
position — the statement at position `i` receives the `i`-th
capacity-consumption record when the batch returned more than `i` of them,
and, when the batch returned an `i`-th response item, that item as a
single-row `Items` slice — and resets the transaction state to none with no
error. -/
theorem c3_commit_distribution (codec : ParamVal → Except String AttrV) (c : ConnState)
    (cc : List CapRec) (resp : List ItemRec)
    (h1 : c.hasTx = true) (h2 : c.txMode = TxMode.txStarted) (h3 : c.txStmtList ≠ [])
    (h4 : isOkExcept (encodeAllGo codec c.txStmtList) = true) :
    (c.commit codec (Except.ok { consumedCapacity := cc, responses := resp })).1 = connReset ∧
    (c.commit codec (Except.ok { consumedCapacity := cc, responses := resp })).2.1 = none ∧
    (c.commit codec (Except.ok { consumedCapacity := cc, responses := resp })).2.2.2.length =
      c.txStmtList.length ∧
    ∀ i : Nat,
      (c.commit codec (Except.ok { consumedCapacity := cc, responses := resp })).2.2.2[i]? =
        (c.txStmtList[i]?).map (fun ts =>
          { ts with output := some { consumedCapacity := cc[i]?
                                     items := (resp[i]?).map (fun it => [it]) } }) := by
  unfold ConnState.commit
  rw [if_neg (by rw [h1]; simp), if_neg (by rw [h2]; simp), if_neg (by rw [h2]; simp),
    if_neg h3]
  cases henc : encodeAllGo codec c.txStmtList with
  | error e => rw [henc] at h4; exact absurd h4 (by simp [isOkExcept])
  | ok batch =>
    refine ⟨rfl, rfl, distributeGo_length cc resp c.txStmtList 0, ?_⟩
    intro i
    show (distributeGo cc resp 0 c.txStmtList)[i]? = _
    rw [distributeGo_getElem cc resp c.txStmtList 0 i]
    simp

theorem c3_witness :
    (ConnState.commit
        { hasTx := true, txMode := TxMode.txStarted
          txStmtList := [{ query := "q0", values := [], output := none },
                         { query := "q1", values := [], output := none }] }
        (fun v => Except.ok { raw := v.raw })
        (Except.ok { consumedCapacity := [{ raw := "c0" }, { raw := "c1" }]
                     responses := [{ raw := "r0" }] })).2.2.2[1]? =
      (([{ query := "q0", values := [], output := none },
          { query := "q1", values := [], output := none }] : List TxStmt)[1]?).map
        (fun ts => { ts with output := some { consumedCapacity := ([{ raw := "c0" }, { raw := "c1" }] : List CapRec)[1]?, items := (([{ raw := "r0" }] : List ItemRec)[1]?).map (fun it => [it]) } }) :=
  (c3_commit_distribution (fun v => Except.ok { raw := v.raw })
    { hasTx := true, txMode := TxMode.txStarted
      txStmtList := [{ query := "q0", values := [], output := none },
                     { query := "q1", values := [], output := none }] }
    [{ raw := "c0" }, { raw := "c1" }] [{ raw := "r0" }]
    rfl rfl (by decide) (by rfl)).2.2.2 1

/-- C8: rolling back a started transaction (with any queue) discards the
queue, makes no remote call (`rollback` has no remote interaction on any
path), returns the state to none, and `BeginTx` immediately starts a new
transaction afterwards; a commit or rollback attempted with no transaction in
progress fails with the no-transaction error. -/
theorem c8_rollback (c : ConnState) (h1 : c.hasTx = true) (h2 : c.txMode = TxMode.txStarted) :
    c.rollback = (connReset, none, false) ∧
    ((c.rollback).1.beginTx).2 = none ∧
    ((c.rollback).1.beginTx).1.txMode = TxMode.txStarted ∧
    (∀ c2 : ConnState, c2.hasTx = false →
      (c2.rollback).2.1 = some GoErr.errNoTx ∧
      ∀ (codec : ParamVal → Except String AttrV) (remote : Except String TxRemoteOut),
        (c2.commit codec remote).2.1 = some GoErr.errNoTx) := by
  have hrb : c.rollback = (connReset, none, false) := by
    unfold ConnState.rollback
    rw [if_neg (by rw [h1]; simp), if_neg (by rw [h2]; simp), if_neg (by rw [h2]; simp)]
  refine ⟨hrb, by rw [hrb]; exact beginTx_connReset.1, by rw [hrb]; exact beginTx_connReset.2, ?_⟩
  intro c2 hc2
  constructor
  · unfold ConnState.rollback
    rw [if_pos hc2]
  · intro codec remote
    unfold ConnState.commit
    rw [if_pos hc2]

theorem c8_witness :
    ConnState.rollback
      { hasTx := true, txMode := TxMode.txStarted
        txStmtList := [{ query := "a", values := [], output := none },
                       { query := "b", values := [], output := none },
                       { query := "c", values := [], output := none }] } =
      (connReset, none, false) :=
  (c8_rollback
    { hasTx := true, txMode := TxMode.txStarted
      txStmtList := [{ query := "a", values := [], output := none },
                     { query := "b", values := [], output := none },
                     { query := "c", values := [], output := none }] } rfl rfl).1

/-- In an exhausted cursor state, `Next` returns `io.EOF` immediately: no
remote fetch, state unchanged. -/
theorem nextFuel_exhausted (fuel : Nat) (r : CursorState) (h : CursorExhausted r) :
    nextFuel fuel r = (r, Except.error CursorErr.eof, 0) := by
  rcases h with h | ⟨h1, h2, h3⟩
  · unfold nextFuel
    rw [h]
  · unfold nextFuel
    rw [h1, if_pos ⟨h2, h3⟩]

/-- Whenever `Next` signals exhaustion (`io.EOF`), the resulting cursor state
is exhausted. -/
theorem nextFuel_eof_exhausted :
    ∀ (fuel : Nat) (r r' : CursorState) (out : Except CursorErr RowVal) (k : Nat),
      nextFuel fuel r = (r', out, k) → out = Except.error CursorErr.eof →
      CursorExhausted r' := by
  intro fuel
  induction fuel with
  | zero =>
    intro r r' out k h hout
    unfold nextFuel at h
    repeat' split at h
    all_goals injection h with ha hb
    all_goals injection hb with hb hc
    all_goals subst ha
    all_goals subst hb
    all_goals first
      | (exact Or.inl rfl)
      | (rename_i hcond; exact Or.inr ⟨by assumption, hcond.1, hcond.2⟩)
      | (rename_i hcond; exact absurd hcond (by omega))
      | (simp at hout; done)
      | (simp only [Except.error.injEq] at hout; subst hout; exact Or.inl (by assumption))
  | succ n ih =>
    intro r r' out k h hout
    unfold nextFuel at h
    repeat' split at h
    all_goals injection h with ha hb
    all_goals injection hb with hb hc
    all_goals subst ha
    all_goals subst hb
    all_goals first
      | (exact Or.inl rfl)
      | (rename_i hcond; exact Or.inr ⟨by assumption, hcond.1, hcond.2⟩)
      | (rename_i hcond; exact absurd hcond (by omega))
      | (simp at hout; done)
      | (simp only [Except.error.injEq] at hout; subst hout; exact Or.inl (by assumption))
      | (rename_i hcond; injection hcond with hfe; subst hfe; exact ih _ _ _ _ rfl hout)

/-- C6: with a positive declared row limit, once the yielded-row counter has
reached the limit (and no error is stored, as is the case after the limit-th
successful yield), `Next` reports exhaustion with zero remote fetches and an
unchanged state; and whenever a `Next` call has signalled exhaustion, calling
`Next` again on the resulting cursor returns the exhaustion signal again with
zero remote fetches and an unchanged state, so exhaustion is idempotent. -/
theorem c6_limit_idempotent_exhaustion (r : CursorState) :
    (r.err = none → 0 < r.limit → r.limit ≤ r.read →
      next r = (r, Except.error CursorErr.eof, 0)) ∧
    ((next r).2.1 = Except.error CursorErr.eof →
      next (next r).1 = ((next r).1, Except.error CursorErr.eof, 0)) := by
  constructor
  · intro h1 h2 h3
    exact nextFuel_exhausted r.script.length r (Or.inr ⟨h1, h2, h3⟩)
  · intro h
    exact nextFuel_exhausted ((next r).1).script.length _
      (nextFuel_eof_exhausted r.script.length r (next r).1 (next r).2.1 (next r).2.2 rfl h)

theorem c6_witness :
    next { err := none, items := [], read := 5, limit := 5, curNextToken := some "t"
           script := [Except.ok { items := [{ raw := "row" }], nextToken := none }] } =
      ({ err := none, items := [], read := 5, limit := 5, curNextToken := some "t"
         script := [Except.ok { items := [{ raw := "row" }], nextToken := none }] },
       Except.error CursorErr.eof, 0) ∧
    next (next { err := none, items := [], read := 5, limit := 5, curNextToken := some "t"
                 script := [Except.ok { items := [{ raw := "row" }], nextToken := none }] }).1 =
      ((next { err := none, items := [], read := 5, limit := 5, curNextToken := some "t"
               script := [Except.ok { items := [{ raw := "row" }], nextToken := none }] }).1,
       Except.error CursorErr.eof, 0) :=
  ⟨(c6_limit_idempotent_exhaustion
      { err := none, items := [], read := 5, limit := 5, curNextToken := some "t"
        script := [Except.ok { items := [{ raw := "row" }], nextToken := none }] }).1
      rfl (by decide) (by decide),
   (c6_limit_idempotent_exhaustion
      { err := none, items := [], read := 5, limit := 5, curNextToken := some "t"
        script := [Except.ok { items := [{ raw := "row" }], nextToken := none }] }).2
      (by rfl)⟩

theorem alookup_aset {β : Type} (l : List (String × β)) (c' c : String) (v : β) :
    alookup (aset l c' v) c = if c' = c then some v else alookup l c := by
  induction l with
  | nil =>
    by_cases h : c' = c <;> simp [aset, alookup, h]
  | cons p t ih =>
    obtain ⟨k, w⟩ := p
    by_cases hk : k = c'
    · subst hk
      by_cases h : k = c <;> simp [aset, alookup, h]
    · by_cases h : k = c
      · subst h
        have h' : ¬c' = k := fun hh => hk hh.symm
        simp [aset, alookup, hk, h']
      · simp [aset, alookup, hk, h, ih]

theorem nameFromAttributeValue_null (v : AttrVal) (h : unmarshalGoType v = none) :
    nameFromAttributeValue v = "NULL" := by
  cases v <;> first | rfl | simp [unmarshalGoType] at h

theorem storedNonNil_aset_self (acc : TypesAcc) (c : String) (t : Option String) (tg : String) :
    storedNonNil { types := aset acc.types c t, tags := aset acc.tags c tg } c = t.isSome := by
  unfold storedNonNil
  rw [alookup_aset, if_pos rfl]
  cases t <;> rfl

theorem storedNonNil_aset_ne (acc : TypesAcc) (k c : String) (hne : k ≠ c)
    (t : Option String) (tg : String) :
    storedNonNil { types := aset acc.types k t, tags := aset acc.tags k tg } c =
      storedNonNil acc c := by
  unfold storedNonNil
  rw [alookup_aset, if_neg hne]

theorem firstNonNullE_cons (c k : String) (v : AttrVal) (rest : List (String × AttrVal)) :
    firstNonNullE c ((k, v) :: rest) =
      if k = c ∧ (unmarshalGoType v).isSome = true then some v else firstNonNullE c rest := by
  simp [firstNonNullE]

theorem keyAppearsE_cons (c k : String) (v : AttrVal) (rest : List (String × AttrVal)) :
    keyAppearsE c ((k, v) :: rest) = if k = c then true else keyAppearsE c rest := by
  simp [keyAppearsE]

/-- The column-type loop over a stream of attribute entries: once a non-nil
type is stored for a column it is never overwritten; while only a nil type
(or nothing) is stored, the column's entries drive the maps — the first entry
with a non-nil unmarshalled type wins, and entries that unmarshal to nil
record the nil type with the NULL tag. -/
theorem foldTypes_char :
    ∀ (entries : List (String × AttrVal)) (acc : TypesAcc) (c : String),
      (storedNonNil acc c = true →
        alookup (entries.foldl typesStep acc).types c = alookup acc.types c ∧
        alookup (entries.foldl typesStep acc).tags c = alookup acc.tags c) ∧
      (storedNonNil acc c = false →
        alookup (entries.foldl typesStep acc).types c =
          (match firstNonNullE c entries with
           | some v => some (unmarshalGoType v)
           | none => if keyAppearsE c entries = true then some none
                     else alookup acc.types c) ∧
        alookup (entries.foldl typesStep acc).tags c =
          (match firstNonNullE c entries with
           | some v => some (nameFromAttributeValue v)
           | none => if keyAppearsE c entries = true then some "NULL"
                     else alookup acc.tags c)) := by
  intro entries
  induction entries with
  | nil =>
    intro acc c
    refine ⟨fun _ => ⟨rfl, rfl⟩, fun _ => ⟨?_, ?_⟩⟩
    · show alookup acc.types c = _
      simp [firstNonNullE, keyAppearsE]
    · show alookup acc.tags c = _
      simp [firstNonNullE, keyAppearsE]
  | cons e rest ih =>
    intro acc c
    obtain ⟨k, v⟩ := e
    by_cases hsk : storedNonNil acc k = true
    case pos =>
      have hstep : typesStep acc (k, v) = acc := by
        unfold typesStep; rw [if_pos hsk]
      constructor
      · intro hs
        simp only [List.foldl_cons, hstep]
        exact (ih acc c).1 hs
      · intro hs
        have hkc : k ≠ c := by
          intro hh; rw [hh] at hsk; rw [hs] at hsk; exact absurd hsk (by simp)
        have hfn : firstNonNullE c ((k, v) :: rest) = firstNonNullE c rest := by
          rw [firstNonNullE_cons, if_neg (by intro hh; exact hkc hh.1)]
        have hka : keyAppearsE c ((k, v) :: rest) = keyAppearsE c rest := by
          rw [keyAppearsE_cons, if_neg hkc]
        simp only [List.foldl_cons, hstep]
        obtain ⟨ht, hg⟩ := (ih acc c).2 hs
        rw [ht, hg, hfn, hka]
        exact ⟨rfl, rfl⟩
    case neg =>
      have hstep : typesStep acc (k, v) = { types := aset acc.types k (unmarshalGoType v), tags := aset acc.tags k (nameFromAttributeValue v) } := by
        unfold typesStep; rw [if_neg hsk]
      constructor
      · intro hs
        have hkc : k ≠ c := by
          intro hh; rw [hh] at hsk; exact hsk hs
        have hS : storedNonNil (typesStep acc (k, v)) c = true := by
          rw [hstep, storedNonNil_aset_ne acc k c hkc]; exact hs
        have hT : alookup (typesStep acc (k, v)).types c = alookup acc.types c := by
          rw [hstep]
          show alookup (aset acc.types k (unmarshalGoType v)) c = alookup acc.types c
          rw [alookup_aset, if_neg hkc]
        have hG : alookup (typesStep acc (k, v)).tags c = alookup acc.tags c := by
          rw [hstep]
          show alookup (aset acc.tags k (nameFromAttributeValue v)) c = alookup acc.tags c
          rw [alookup_aset, if_neg hkc]
        simp only [List.foldl_cons]
        obtain ⟨ht, hg⟩ := (ih (typesStep acc (k, v)) c).1 hS
        rw [ht, hg, hT, hG]
        exact ⟨rfl, rfl⟩
      · intro hs
        by_cases hkc : k = c
        · subst hkc
          by_cases hv : (unmarshalGoType v).isSome = true
          · have hS : storedNonNil (typesStep acc (k, v)) k = true := by
              rw [hstep, storedNonNil_aset_self]; exact hv
            have hT : alookup (typesStep acc (k, v)).types k = some (unmarshalGoType v) := by
              rw [hstep]
              show alookup (aset acc.types k (unmarshalGoType v)) k = _
              rw [alookup_aset, if_pos rfl]
            have hG : alookup (typesStep acc (k, v)).tags k =
                some (nameFromAttributeValue v) := by
              rw [hstep]
              show alookup (aset acc.tags k (nameFromAttributeValue v)) k = _
              rw [alookup_aset, if_pos rfl]
            have hfn : firstNonNullE k ((k, v) :: rest) = some v := by
              rw [firstNonNullE_cons, if_pos ⟨rfl, hv⟩]
            simp only [List.foldl_cons]
            obtain ⟨ht, hg⟩ := (ih (typesStep acc (k, v)) k).1 hS
            rw [ht, hg, hT, hG, hfn]
            exact ⟨rfl, rfl⟩
          · have hvn : unmarshalGoType v = none := by
              cases hvv : unmarshalGoType v
              · rfl
              · rw [hvv] at hv; simp at hv
            have hS : storedNonNil (typesStep acc (k, v)) k = false := by
              rw [hstep, storedNonNil_aset_self, hvn]; rfl
            have hT : alookup (typesStep acc (k, v)).types k = some none := by
              rw [hstep]
              show alookup (aset acc.types k (unmarshalGoType v)) k = _
              rw [alookup_aset, if_pos rfl, hvn]
            have hG : alookup (typesStep acc (k, v)).tags k = some "NULL" := by
              rw [hstep]
              show alookup (aset acc.tags k (nameFromAttributeValue v)) k = _
              rw [alookup_aset, if_pos rfl, nameFromAttributeValue_null v hvn]
            have hfn : firstNonNullE k ((k, v) :: rest) = firstNonNullE k rest := by
              rw [firstNonNullE_cons,
                if_neg (by intro hh; rw [hvn] at hh; exact absurd hh.2 (by simp))]
            have hka : keyAppearsE k ((k, v) :: rest) = true := by
              rw [keyAppearsE_cons, if_pos rfl]
            simp only [List.foldl_cons]
            obtain ⟨ht, hg⟩ := (ih (typesStep acc (k, v)) k).2 hS
            rw [ht, hg, hfn, hka]
            cases hf : firstNonNullE k rest with
            | some w => exact ⟨rfl, rfl⟩
            | none =>
              by_cases hra : keyAppearsE k rest = true
              · rw [if_pos hra, if_pos hra]
                exact ⟨by simp, by simp⟩
              · rw [if_neg hra, if_neg hra, hT, hG]
                exact ⟨by simp, by simp⟩
        · have hS : storedNonNil (typesStep acc (k, v)) c = false := by
            rw [hstep, storedNonNil_aset_ne acc k c hkc]; exact hs
          have hT : alookup (typesStep acc (k, v)).types c = alookup acc.types c := by
            rw [hstep]
            show alookup (aset acc.types k (unmarshalGoType v)) c = alookup acc.types c
            rw [alookup_aset, if_neg hkc]
          have hG : alookup (typesStep acc (k, v)).tags c = alookup acc.tags c := by
            rw [hstep]
            show alookup (aset acc.tags k (nameFromAttributeValue v)) c = alookup acc.tags c
            rw [alookup_aset, if_neg hkc]
          have hfn : firstNonNullE c ((k, v) :: rest) = firstNonNullE c rest := by
            rw [firstNonNullE_cons, if_neg (by intro hh; exact hkc hh.1)]
          have hka : keyAppearsE c ((k, v) :: rest) = keyAppearsE c rest := by
            rw [keyAppearsE_cons, if_neg hkc]
          simp only [List.foldl_cons]
          obtain ⟨ht, hg⟩ := (ih (typesStep acc (k, v)) c).2 hS
          rw [ht, hg, hfn, hka]
          constructor
          · cases hf : firstNonNullE c rest with
            | some w => rfl
            | none =>
              by_cases hra : keyAppearsE c rest = true
              · rw [if_pos hra, if_pos hra]
              · rw [if_neg hra, if_neg hra, hT]
          · cases hf : firstNonNullE c rest with
            | some w => rfl
            | none =>
              by_cases hra : keyAppearsE c rest = true
              · rw [if_pos hra, if_pos hra]
              · rw [if_neg hra, if_neg hra, hG]

theorem foldl_rows (items : List RowA) :
    ∀ acc : TypesAcc,
      items.foldl (fun a it => it.foldl typesStep a) acc =
        (items.flatten).foldl typesStep acc := by
  induction items with
  | nil => intro acc; rfl
  | cons it rest ih =>
    intro acc
    simp only [List.foldl_cons, List.flatten_cons, List.foldl_append]
    exact ih _

/-- The two column maps built by `ResultResultSet.init`, characterised over
the page's entry stream. -/
theorem buildColTypes_char (items : List RowA) (c : String) :
    alookup (buildColTypes items).types c =
      (match firstNonNullE c (rowEntries items) with
       | some v => some (unmarshalGoType v)
       | none => if keyAppearsE c (rowEntries items) = true then some none else none) ∧
    alookup (buildColTypes items).tags c =
      (match firstNonNullE c (rowEntries items) with
       | some v => some (nameFromAttributeValue v)
       | none => if keyAppearsE c (rowEntries items) = true then some "NULL" else none) := by
  have heq : buildColTypes items =
      (rowEntries items).foldl typesStep { types := [], tags := [] } := by
    unfold buildColTypes rowEntries
    exact foldl_rows items _
  obtain ⟨ht, hg⟩ :=
    (foldTypes_char (rowEntries items) { types := [], tags := [] } c).2 (by rfl)
  rw [heq, ht, hg]
  constructor
  · cases firstNonNullE c (rowEntries items) with
    | some w => rfl
    | none =>
      by_cases hra : keyAppearsE c (rowEntries items) = true
      · rw [if_pos hra, if_pos hra]
      · rw [if_neg hra, if_neg hra]; rfl
  · cases firstNonNullE c (rowEntries items) with
    | some w => rfl
    | none =>
      by_cases hra : keyAppearsE c (rowEntries items) = true
      · rw [if_pos hra, if_pos hra]
      · rw [if_neg hra, if_neg hra]; rfl

theorem keyAppearsE_iff (c : String) (l : List (String × AttrVal)) :
    keyAppearsE c l = true ↔ c ∈ l.map Prod.fst := by
  induction l with
  | nil => simp [keyAppearsE]
  | cons e rest ih =>
    obtain ⟨k, v⟩ := e
    rw [keyAppearsE_cons]
    by_cases h : k = c
    · subst h
      simp
    · rw [if_neg h]
      simp only [List.map_cons, List.mem_cons]
      constructor
      · intro hh; exact Or.inr (ih.mp hh)
      · intro hh
        rcases hh with hh | hh
        · exact absurd hh.symm h
        · exact ih.mpr hh

theorem colKeys_mem (items : List RowA) (c : String) :
    c ∈ colKeys items ↔ keyAppearsE c (rowEntries items) = true := by
  unfold colKeys rowEntries
  rw [List.mem_dedup, ← List.map_flatten]
  exact (keyAppearsE_iff c items.flatten).symm

/-- C7 (counterexample): when the first item's value for a column is the NULL
attribute (whose unmarshalled value is nil), the inferred type and source
tag are re-captured from a later non-NULL item, so they are not taken from
the first item containing that column: here the first item holds NULL for
column `a`, yet the recorded tag is `S` (from the second item), not `NULL`. -/
theorem c7_counterexample :
    nameFromAttributeValue (AttrVal.avNull true) = "NULL" ∧
    alookup (initCols [] (some [[("a", AttrVal.avNull true)],
      [("a", AttrVal.avS "x")]])).columnSourceTypes "a" = some "S" ∧
    alookup (initCols [] (some [[("a", AttrVal.avNull true)],
      [("a", AttrVal.avS "x")]])).columnTypes "a" = some (some "string") := by
  decide

/-- C7 (amended): for a result set initialised from a first page, when no
explicit output columns were named the column list is the sorted,
duplicate-free union of the attribute keys appearing in the page's items;
when explicit columns were named that order is kept and never overwritten.
Each column's inferred type and native source-type tag are taken from the
first occurrence of the column whose value unmarshals to a non-nil Go type
(a NULL value unmarshals to nil, so leading NULL occurrences are overwritten
by the next non-NULL one); a column all of whose occurrences are NULL records
the nil type and the NULL tag. -/
theorem c7_column_discovery (preCols : List String) (items : List RowA) (c : String) :
    (preCols ≠ [] → (initCols preCols (some items)).columnList = preCols) ∧
    (preCols = [] →
      List.Sorted strLeP (initCols preCols (some items)).columnList ∧
      (initCols preCols (some items)).columnList.Nodup ∧
      (c ∈ (initCols preCols (some items)).columnList ↔
        keyAppearsE c (rowEntries items) = true)) ∧
    alookup (initCols preCols (some items)).columnTypes c =
      (match firstNonNullE c (rowEntries items) with
       | some v => some (unmarshalGoType v)
       | none => if keyAppearsE c (rowEntries items) = true then some none else none) ∧
    alookup (initCols preCols (some items)).columnSourceTypes c =
      (match firstNonNullE c (rowEntries items) with
       | some v => some (nameFromAttributeValue v)
       | none => if keyAppearsE c (rowEntries items) = true then some "NULL" else none) := by
  by_cases hp : preCols = []
  · have hI : initCols preCols (some items) =
        { columnList := List.insertionSort strLeP (colKeys items)
          columnTypes := (buildColTypes items).types
          columnSourceTypes := (buildColTypes items).tags } := by
      subst hp
      rfl
    rw [hI]
    refine ⟨fun hne => absurd hp hne, fun _ => ⟨?_, ?_, ?_⟩, ?_, ?_⟩
    · exact List.sorted_insertionSort strLeP (colKeys items)
    · exact ((List.perm_insertionSort strLeP (colKeys items)).symm).nodup
        (List.nodup_dedup _)
    · rw [(List.perm_insertionSort strLeP (colKeys items)).mem_iff]
      exact colKeys_mem items c
    · exact (buildColTypes_char items c).1
    · exact (buildColTypes_char items c).2
  · have hI : initCols preCols (some items) =
        { columnList := preCols
          columnTypes := (buildColTypes items).types
          columnSourceTypes := (buildColTypes items).tags } := by
      simp only [initCols]
      rw [if_pos hp]
    rw [hI]
    exact ⟨fun _ => rfl, fun he => absurd he hp,
      (buildColTypes_char items c).1, (buildColTypes_char items c).2⟩

theorem c7_witness :
    (initCols ["y", "x"] (some [[("a", AttrVal.avS "v")]])).columnList = ["y", "x"] :=
  (c7_column_discovery ["y", "x"] [[("a", AttrVal.avS "v")]] "a").1 (by decide)
